import Mathlib

/-!
Verification of the hierarchical text-search result model extracted from the
repository's search subsystem:

* `PathTrie` — the prefix tree keyed by filesystem path segments
  (src/unnamed/part_001, class `PathTrie`).
* `TextSearchHeadingImpl` / `PlainTextSearchHeadingImpl`
  (src/unnamed/part_011).
* `SearchResultImpl` (src/unnamed/part_010).

The TypeScript classes are shallowly embedded: mutable object state becomes
explicit state passing over Lean structures, JavaScript `Map` objects become
association lists that preserve insertion order, nullable fields become
`Option`, and code that can throw (the non-null assertion `!`) returns
`Except`.  Collaborator modules that are imported by the code under study but
whose sources are not part of the repository snapshot (folderMatch.js,
searchTreeCommon.js, the ternary search tree and the pauseable emitter) are
modelled from the specification; each such definition carries a doc comment
saying so.
-/

namespace VSSearch

/-! ## PathTrie (src/unnamed/part_001)

`PathTrieNode` holds an optional payload and a `Map<string, PathTrieNode>`
of children.  The map is embedded as an association list: JavaScript `Map`
preserves insertion order, `set` on an existing key overwrites in place and
otherwise appends, `delete` removes the entry.  The parent back-reference
(`prev`) is not represented explicitly; `delete`, the only operation that
uses it, is embedded by the equivalent recursion that erases the final
segment's entry from the next-to-last node on the path.

The payload truthiness test `if (cur.data)` in `findSubstr` is embedded as
an `Option.isSome` test: in the repository the payloads are always object
references (folder matches), which are truthy. -/

inductive PathTrieNode (T : Type) : Type where
  | node : Option T → List (String × PathTrieNode T) → PathTrieNode T

namespace PathTrieNode

def data : PathTrieNode T → Option T
  | node d _ => d

def children : PathTrieNode T → List (String × PathTrieNode T)
  | node _ ch => ch

end PathTrieNode

/-- Lookup in a child map (JavaScript `cur.next?.get(segment)`). -/
def childGet (s : String) : List (String × PathTrieNode T) → Option (PathTrieNode T)
  | [] => none
  | (k, n) :: rest => if k = s then some n else childGet s rest

/-- Update in a child map (JavaScript `cur.next.set(segment, child)`):
overwrite in place when the key exists, append otherwise. -/
def childSet (s : String) (n : PathTrieNode T) :
    List (String × PathTrieNode T) → List (String × PathTrieNode T)
  | [] => [(s, n)]
  | (k, m) :: rest =>
      if k = s then (k, n) :: rest else (k, m) :: childSet s n rest

/-- Removal from a child map (JavaScript `next.delete(segment)`). -/
def childErase (s : String) :
    List (String × PathTrieNode T) → List (String × PathTrieNode T)
  | [] => []
  | (k, m) :: rest =>
      if k = s then rest else (k, m) :: childErase s rest

/-- Splitting a character list at separator characters, accumulating the
current segment in reverse.  This is the usual semantics of
`path.split(/[\\/]/)`: every separator occurrence ends a (possibly empty)
piece. -/
def splitSegsAux : List Char → List Char → List String
  | [], acc => [String.mk acc.reverse]
  | c :: cs, acc =>
      if c = '/' || c = '\\' then String.mk acc.reverse :: splitSegsAux cs []
      else splitSegsAux cs (c :: acc)

/-- `PathTrie.toSegments`: split on forward and backward slashes and discard
empty segments (`path.split(/[\\/]/).filter(path => !!path)`). -/
def toSegments (path : String) : List String :=
  (splitSegsAux path.toList []).filter fun s => !s.isEmpty

/-- `PathTrie.set` via `ensureNode`, recursing over the segment list: missing
children are created (`new PathTrieNode()` appended to the parent map) and the
node at the end of the path receives the payload. -/
def setSeg (v : T) : List String → PathTrieNode T → PathTrieNode T
  | [], .node _ ch => .node (some v) ch
  | s :: rest, .node d ch =>
      let child := match childGet s ch with
        | some c => c
        | none => .node none []
      .node d (childSet s (setSeg v rest child) ch)

/-- `PathTrie.get` via `findNode`: walk the segments, failing on a missing
child, and return the final node's payload. -/
def getSeg : List String → PathTrieNode T → Option T
  | [], .node d _ => d
  | s :: rest, .node _ ch =>
      match childGet s ch with
      | none => none
      | some c => getSeg rest c

/-- `PathTrie.delete`: walk the segments (returning on a missing child) and,
when the full path exists, remove the final segment's entry from its parent
(`cur.prev?.next?.delete(segments[segments.length - 1])`).  With an empty
segment list the walk ends at the root, whose `prev` is `undefined`, so
nothing is deleted. -/
def deleteSeg : List String → PathTrieNode T → PathTrieNode T
  | [], n => n
  | s :: rest, .node d ch =>
      match childGet s ch with
      | none => .node d ch
      | some c =>
          match rest with
          | [] => .node d (childErase s ch)
          | _ :: _ => .node d (childSet s (deleteSeg rest c) ch)

/-- `PathTrie.findSubstr`: walk the segments from the root, yielding each
visited node's payload when it is present (truthy), and stop at the first
missing child. -/
def findSubstrSeg : List String → PathTrieNode T → List T
  | [], _ => []
  | s :: rest, .node _ ch =>
      match childGet s ch with
      | none => []
      | some c =>
          match c.data with
          | some v => v :: findSubstrSeg rest c
          | none => findSubstrSeg rest c

def PathTrie.empty (T : Type) : PathTrieNode T := .node none []

def PathTrie.set (t : PathTrieNode T) (path : String) (v : T) : PathTrieNode T :=
  setSeg v (toSegments path) t

def PathTrie.get (t : PathTrieNode T) (path : String) : Option T :=
  getSeg (toSegments path) t

def PathTrie.delete (t : PathTrieNode T) (path : String) : PathTrieNode T :=
  deleteSeg (toSegments path) t

def PathTrie.findSubstr (t : PathTrieNode T) (path : String) : List T :=
  findSubstrSeg (toSegments path) t

/-! Well-formedness of a trie: every node's child map has pairwise distinct
keys, as is guaranteed for a JavaScript `Map`.  (An association list with a
duplicated key is representable in the embedding but unreachable through the
API.) -/

/-- Key list of a child map. -/
def childKeys (ch : List (String × PathTrieNode T)) : List String :=
  ch.map Prod.fst

/-- Pairwise distinctness of a key list. -/
def nodupKeys : List String → Bool
  | [] => true
  | k :: rest => !(rest.contains k) && nodupKeys rest

mutual

/-- All child maps in the trie have pairwise distinct keys. -/
def wfNode : PathTrieNode T → Bool
  | .node _ ch => nodupKeys (childKeys ch) && wfChildren ch

/-- `wfNode` for every child of a node. -/
def wfChildren : List (String × PathTrieNode T) → Bool
  | [] => true
  | (_, c) :: rest => wfNode c && wfChildren rest

end

/-- The successive nodes visited when walking a segment list from a start
node, stopping at the first missing child. -/
def nodesAlong : List String → PathTrieNode T → List (PathTrieNode T)
  | [], _ => []
  | s :: rest, .node _ ch =>
      match childGet s ch with
      | none => []
      | some c => c :: nodesAlong rest c

/-- Written from the spec's words: the payloads stored at the payload-bearing
nodes along the segment path from the root to the path's node (including the
exact node), in root-to-leaf order, skipping nodes without payloads, with
nothing yielded past a segment that has no matching child. -/
def ancestorPayloadsSpec (t : PathTrieNode T) (path : String) : List T :=
  (nodesAlong (toSegments path) t).filterMap PathTrieNode.data

mutual

/-- Every payload stored anywhere in the trie satisfies `p`. -/
def trieAll (p : T → Bool) : PathTrieNode T → Bool
  | .node d ch =>
      (match d with
       | some v => p v
       | none => true) && trieAllChildren p ch

/-- `trieAll` for every child of a node. -/
def trieAllChildren (p : T → Bool) : List (String × PathTrieNode T) → Bool
  | [] => true
  | (_, c) :: rest => trieAll p c && trieAllChildren p rest

end

/-! ## The search-result model (src/unnamed/part_010 and part_011)

The mutable object graph is embedded as explicit state.  `FolderMatch`
objects (whose class lives in folderMatch.js, outside the repository
snapshot) are kept in a heap — an association list from numeric object
identities to records — because the TypeScript code aliases them: the query
setter captures the old folder matches in the `disposePastResults` closure
while the heading's own lists are rebuilt.  A `HeadingState` is the state of
one `TextSearchHeadingImpl`; a `SearchResultState` owns the plain and the AI
heading. -/

/-- `IFileMatch`: a provider-supplied raw match; only the `resource` URI
(modelled as a path string) matters to the routing logic under study. -/
structure FileMatchRaw where
  resource : String
deriving DecidableEq, Repr

/-- Modelled from the spec: the observable state of one FolderMatch object
(folderMatch.js is not part of the repository snapshot).  `resource` is the
folder root URI, or `none` for the "other files" bucket; `fileMatches` holds
the resources of the owned file matches; `clearCount` and `disposeCount`
count how often the object was actually cleared / disposed. -/
structure FolderMatchObj where
  resource : Option String
  fid : String
  index : Nat
  fileMatches : List String
  clearCount : Nat
  disposed : Bool
  disposeCount : Nat
  replacingAll : Bool
deriving DecidableEq, Repr

/-- `ITextQuery`: only the folder query roots matter here. -/
structure TextQuery where
  folderQueries : List String
deriving DecidableEq, Repr

/-- The heap of FolderMatch objects, keyed by object identity. -/
abbrev Store := List (Nat × FolderMatchObj)

def storeGet (st : Store) (k : Nat) : Option FolderMatchObj :=
  match st with
  | [] => none
  | (k', fm) :: rest => if k' = k then some fm else storeGet rest k

def storeUpdate (k : Nat) (f : FolderMatchObj → FolderMatchObj) : Store → Store
  | [] => []
  | (k', fm) :: rest =>
      if k' = k then (k', f fm) :: rest else (k', fm) :: storeUpdate k f rest

def storeInsert (k : Nat) (fm : FolderMatchObj) (st : Store) : Store :=
  (k, fm) :: st

def updateMany (ids : List Nat) (f : FolderMatchObj → FolderMatchObj)
    (st : Store) : Store :=
  ids.foldl (fun s k => storeUpdate k f s) st

/-- Modelled from the spec: `FolderMatch.clear` removes all owned file
matches.  Per spec section 7 every component guards against operating on
already-disposed state, so clearing a disposed folder match is a no-op. -/
def clearFM (fm : FolderMatchObj) : FolderMatchObj :=
  if fm.disposed then fm
  else { fm with fileMatches := [], clearCount := fm.clearCount + 1 }

/-- Modelled from the spec: `FolderMatch.dispose`.  Per spec section 7
disposal is idempotent, so a second call does not dispose again. -/
def disposeFM (fm : FolderMatchObj) : FolderMatchObj :=
  if fm.disposed then fm
  else { fm with disposed := true, disposeCount := fm.disposeCount + 1 }

/-- Modelled from the spec: `FolderMatch.addFileMatch` creates or merges into
an existing FileInstanceMatch for each raw match's URI. -/
def addFilesFM (raws : List FileMatchRaw) (fm : FolderMatchObj) : FolderMatchObj :=
  { fm with
    fileMatches := raws.foldl
      (fun l raw => if l.contains raw.resource then l else l ++ [raw.resource])
      fm.fileMatches }

/-- Modelled from the spec: `FolderMatch.remove` detaches the given file
matches. -/
def removeFilesFM (raws : List FileMatchRaw) (fm : FolderMatchObj) : FolderMatchObj :=
  { fm with
    fileMatches := fm.fileMatches.filter
      fun r => !(raws.map FileMatchRaw.resource).contains r }

/-- The `replacingAll` property setter of a folder match. -/
def setReplacingFM (running : Bool) (fm : FolderMatchObj) : FolderMatchObj :=
  { fm with replacingAll := running }

/-- State of one `TextSearchHeadingImpl`.  `pastResults` defunctionalises the
`disposePastResults` closure: `none` is the initial no-op
`() => Promise.resolve()`, and `some ids` is the teardown closure installed
by the query setter, capturing the then-current folder matches. -/
structure HeadingState where
  store : Store
  nextId : Nat
  folderMatchIds : List Nat
  otherFilesMatchId : Option Nat
  folderMap : PathTrieNode Nat
  query : Option TextQuery
  cachedSearchComplete : Option Nat
  highlightRange : Option Nat
  pastResults : Option (List Nat)
  isDirty : Bool
  hidden : Bool
  allowOtherResults : Bool

/-- `folderMatches()`: the workspace-root folder matches, plus the "other
files" bucket when it exists and other results are allowed. -/
def headingFolderIds (h : HeadingState) : List Nat :=
  match h.otherFilesMatchId, h.allowOtherResults with
  | some oid, true => h.folderMatchIds ++ [oid]
  | _, _ => h.folderMatchIds

/-- Modelled from the spec: `TernarySearchTree.forUris(...).findSubstr(uri)`
(the ternary search tree is not part of the repository snapshot).  Per the
spec the heading looks up the owning FolderMatch for a URI through a path
trie; `findSubstr` resolves to the deepest stored ancestor of the path. -/
def mapFindSubstr (t : PathTrieNode Nat) (path : String) : Option Nat :=
  (findSubstrSeg (toSegments path) t).getLast?

/-- `getFolderMatch(resource)`: the trie lookup, falling back to the "other
files" bucket when the lookup misses, other results are allowed and the
bucket exists. -/
def getFolderMatchId (h : HeadingState) (resource : String) : Option Nat :=
  match mapFindSubstr h.folderMap resource with
  | some fid => some fid
  | none => if h.allowOtherResults then h.otherFilesMatchId else none

/-! `groupFilesByFolder`: the `rawPerFolder` ResourceMap is an association
list from folder resource to the raw matches collected for it. -/

abbrev Buckets := List (String × List FileMatchRaw)

def bucketsGet (r : String) : Buckets → Option (List FileMatchRaw)
  | [] => none
  | (k, l) :: rest => if k = r then some l else bucketsGet r rest

/-- `ResourceMap.set`: overwrite in place or append. -/
def bucketsSet (r : String) (l : List FileMatchRaw) : Buckets → Buckets
  | [] => [(r, l)]
  | (k, l') :: rest =>
      if k = r then (k, l) :: rest else (k, l') :: bucketsSet r l rest

def bucketsHasKey (r : String) : Buckets → Bool
  | [] => false
  | (k, _) :: rest => k = r || bucketsHasKey r rest

/-- `rawPerFolder.get(resource)!.push(rawFileMatch)`: `none` models the
non-null assertion failing because the resource was never seeded. -/
def bucketsPush (r : String) (raw : FileMatchRaw) : Buckets → Option Buckets
  | [] => none
  | (k, l) :: rest =>
      if k = r then some ((k, l ++ [raw]) :: rest)
      else (bucketsPush r raw rest).map fun b => (k, l) :: b

/-- `this._folderMatches.forEach(fm => rawPerFolder.set(fm.resource, []))`. -/
def seedBuckets (h : HeadingState) : Buckets :=
  h.folderMatchIds.foldl
    (fun b fid =>
      match storeGet h.store fid with
      | some fm =>
          match fm.resource with
          | some r => bucketsSet r [] b
          | none => b
      | none => b)
    []

/-- The loop body of `groupFilesByFolder`: each raw match is routed through
`getFolderMatch`; a lookup miss is silently skipped ("foldermatch was
previously removed by user or disposed for some reason"); a resolved folder
with a resource receives the match in its bucket, one without a resource (the
"other files" bucket) collects it in `otherFileMatches`. -/
def groupGo (h : HeadingState) :
    List FileMatchRaw → Buckets → List FileMatchRaw →
    Except String (Buckets × List FileMatchRaw)
  | [], buckets, other => .ok (buckets, other)
  | raw :: rest, buckets, other =>
      match getFolderMatchId h raw.resource with
      | none => groupGo h rest buckets other
      | some fid =>
          match storeGet h.store fid with
          | none => .error "dangling folder match identity"
          | some fm =>
              match fm.resource with
              | some r =>
                  match bucketsPush r raw buckets with
                  | none => .error "non-null assertion on rawPerFolder.get"
                  | some buckets' => groupGo h rest buckets' other
              | none => groupGo h rest buckets (other ++ [raw])

def groupFilesByFolder (h : HeadingState) (fileMatches : List FileMatchRaw) :
    Except String (Buckets × List FileMatchRaw) :=
  groupGo h fileMatches (seedBuckets h) []

/-- The classification a raw match receives in `groupFilesByFolder`:
`none` — dropped (no owning folder match); `some none` — the "other files"
list; `some (some r)` — the bucket of the folder rooted at `r`. -/
def classifyRaw (h : HeadingState) (raw : FileMatchRaw) : Option (Option String) :=
  (getFolderMatchId h raw.resource).bind fun fid =>
    (storeGet h.store fid).map fun fm => fm.resource

/-- One iteration of the per-folder dispatch loop of `add`: empty batches are
skipped (`if (!raw.length) return`), others are delivered through
`getFolderMatch(raw[0].resource)?.addFileMatch(...)`; the log records each
`addFileMatch` call (target object, batch). -/
def dispatchStep (acc : HeadingState × List (Nat × List FileMatchRaw))
    (entry : String × List FileMatchRaw) :
    HeadingState × List (Nat × List FileMatchRaw) :=
  match entry.2 with
  | [] => acc
  | raw0 :: _ =>
      match getFolderMatchId acc.1 raw0.resource with
      | none => acc
      | some fid =>
          ({ acc.1 with store := storeUpdate fid (addFilesFM entry.2) acc.1.store },
            acc.2 ++ [(fid, entry.2)])

/-- The per-folder dispatch loop of `add` (`byFolder.forEach(...)`). -/
def dispatchByFolder (buckets : Buckets) (h : HeadingState) :
    HeadingState × List (Nat × List FileMatchRaw) :=
  buckets.foldl dispatchStep (h, [])

/-- Key list of a bucket map. -/
def bucketsKeys (b : Buckets) : List String :=
  b.map Prod.fst

/-- Running the `disposePastResults` closure: the teardown installed by the
query setter clears, then disposes, the captured old folder matches and
resets the dirty flag; the initial closure does nothing.  The closure is not
reset after running. -/
def runTeardown (ids : List Nat) (h : HeadingState) : HeadingState :=
  { h with store := updateMany ids disposeFM (updateMany ids clearFM h.store),
           isDirty := false }

def runDisposePastResults (h : HeadingState) : HeadingState :=
  match h.pastResults with
  | none => h
  | some ids => runTeardown ids h

/-- `TextSearchHeadingImpl.add`: group the raw matches by folder, dispatch
each nonempty per-folder batch, dispatch the `other` partition to the "other
files" bucket only when `ai` is false, then run `disposePastResults`.  The
log records every `addFileMatch` call. -/
def headingAddE (h : HeadingState) (allRaw : List FileMatchRaw)
    (searchInstanceID : String) (ai : Bool) (silent : Bool) :
    Except String (HeadingState × List (Nat × List FileMatchRaw)) :=
  match groupFilesByFolder h allRaw with
  | .error e => .error e
  | .ok (byFolder, other) =>
      let pair := dispatchByFolder byFolder h
      let pair2 :=
        if !ai then
          match pair.1.otherFilesMatchId with
          | some oid =>
              ({ pair.1 with store := storeUpdate oid (addFilesFM other) pair.1.store },
                pair.2 ++ [(oid, other)])
          | none => pair
        else pair
      .ok (runDisposePastResults pair2.1, pair2.2)

/-- A freshly created FolderMatchWorkspaceRoot for one folder query root. -/
def workspaceFolderObj (r : String) (idx : Nat) : FolderMatchObj :=
  { resource := some r, fid := r, index := idx, fileMatches := [],
    clearCount := 0, disposed := false, disposeCount := 0, replacingAll := false }

/-- Allocation loop of the query setter: one FolderMatchWorkspaceRoot per
folder query root, in order, with fresh object identities. -/
def createFoldersGo : List String → Nat → HeadingState → HeadingState × List Nat
  | [], _, h => (h, [])
  | r :: rest, idx, h =>
      let h1 := { h with store := storeInsert h.nextId (workspaceFolderObj r idx) h.store,
                         nextId := h.nextId + 1 }
      let p := createFoldersGo rest (idx + 1) h1
      (p.1, h.nextId :: p.2)

/-- `this._folderMatches.forEach(fm => this._folderMatchesMap.set(fm.resource, fm))`. -/
def buildFolderMap (st : Store) : List Nat → PathTrieNode Nat → PathTrieNode Nat
  | [], t => t
  | fid :: rest, t =>
      let t' :=
        match storeGet st fid with
        | some fm =>
            match fm.resource with
            | some r => setSeg fid (toSegments r) t
            | none => t
        | none => t
      buildFolderMap st rest t'

/-- The part of the query setter that runs for every query, null or not:
capture the current folder matches in the `disposePastResults` closure,
clear the cached search completion, remove the highlight decoration and
reset the lookup trie. -/
def setQueryCore (h : HeadingState) : HeadingState :=
  { h with pastResults := some (headingFolderIds h),
           cachedSearchComplete := none,
           highlightRange := none,
           folderMap := PathTrieNode.node none [] }

/-- The fresh "other files" bucket created by the query setter. -/
def otherFilesObj (idx : Nat) : FolderMatchObj :=
  { resource := none, fid := "otherFiles", index := idx, fileMatches := [],
    clearCount := 0, disposed := false, disposeCount := 0, replacingAll := false }

/-- `if (this._allowOtherResults) { this._otherFilesMatch = ... }` — when
other results are not allowed the previous bucket reference is left as is. -/
def setQueryOther (h3 : HeadingState) (idx : Nat) : HeadingState :=
  if h3.allowOtherResults then
    { h3 with store := storeInsert h3.nextId (otherFilesObj idx) h3.store,
              nextId := h3.nextId + 1,
              otherFilesMatchId := some h3.nextId }
  else h3

/-- The folder-match allocation of the non-null query setter branch. -/
def setQueryFolders (h : HeadingState) (q : TextQuery) : HeadingState × List Nat :=
  createFoldersGo q.folderQueries 0 (setQueryCore h)

/-- The heading after the new folder matches and the lookup trie have been
rebuilt (`this._folderMatches = ...; this._folderMatches.forEach(... set)`). -/
def setQueryRebuilt (h : HeadingState) (q : TextQuery) : HeadingState :=
  { (setQueryFolders h q).1 with
      folderMatchIds := (setQueryFolders h q).2,
      folderMap := buildFolderMap (setQueryFolders h q).1.store
        (setQueryFolders h q).2 (PathTrieNode.node none []) }

/-- The non-null branch of the query setter: rebuild the folder matches (one
per folder query root), rebuild the lookup trie, create the "other files"
bucket when allowed, and store the query. -/
def setQuerySome (h : HeadingState) (q : TextQuery) : HeadingState :=
  { setQueryOther (setQueryRebuilt h q) ((setQueryFolders h q).2.length + 1)
    with query := some q }

/-- The `query` setter of `TextSearchHeadingImpl`. -/
def setQueryH (h : HeadingState) (q : Option TextQuery) : HeadingState :=
  match q with
  | none => setQueryCore h
  | some q => setQuerySome h q

/-- `TextSearchHeadingImpl.clear`: clear every folder match (with
`disposeAll`), dispose them (`disposeMatches`), drop the folder lists, reset
the lookup trie, remove the highlight decoration and forget the cached
search completion. -/
def clearH (h : HeadingState) : HeadingState :=
  let st1 := updateMany (headingFolderIds h) clearFM h.store
  let st2 := updateMany (headingFolderIds h) disposeFM st1
  { h with store := st2, folderMatchIds := [], otherFilesMatchId := none,
           folderMap := PathTrieNode.node none [],
           highlightRange := none, cachedSearchComplete := none }

/-- `TextSearchHeadingImpl.hide`: mark hidden, then clear. -/
def hideH (h : HeadingState) : HeadingState :=
  clearH { h with hidden := true }

/-- The `replacingAll` setter of `PlainTextSearchHeadingImpl`: propagate the
flag to every current folder match. -/
def setReplacingAllH (running : Bool) (h : HeadingState) : HeadingState :=
  { h with store := updateMany (headingFolderIds h) (setReplacingFM running) h.store }

/-- Whether the external replace collaborator's promise resolves or
rejects. -/
inductive ReplaceOutcome : Type where
  | success
  | failure
deriving DecidableEq

/-- `PlainTextSearchHeadingImpl.replaceAll(progress)`: set the replacing flag,
delegate the substitution to the replace collaborator (represented by the
`outcome` parameter), then on resolution reset the flag and clear the
heading, and on rejection only reset the flag. -/
def replaceAllH (h : HeadingState) (outcome : ReplaceOutcome) : HeadingState :=
  let h1 := setReplacingAllH true h
  match outcome with
  | .success => clearH (setReplacingAllH false h1)
  | .failure => setReplacingAllH false h1

/-! ### Heading-level remove and the SearchResult façade -/

/-- The elements `TextSearchHeadingImpl.remove` accepts: file instance
matches (only their resource matters to the routing) and folder matches
(identified by their heap identity). -/
inductive HeadingRemovable : Type where
  | fileElem (resource : String)
  | folderElem (fid : Nat)
deriving DecidableEq, Repr

/-- The per-folder dispatch loop of heading `remove`. -/
def dispatchRemoveByFolder (buckets : Buckets) (h : HeadingState) : HeadingState :=
  buckets.foldl
    (fun st entry =>
      match entry.2 with
      | [] => st
      | raw0 :: _ =>
          match getFolderMatchId st raw0.resource with
          | none => st
          | some fid =>
              { st with store := storeUpdate fid (removeFilesFM entry.2) st.store })
    h

/-- `TextSearchHeadingImpl.remove(matches, ai)`: folder-match elements are
cleared; the file-instance elements are grouped by folder and removed from
their owning folder matches; a final call handles the `other` partition.
The `ai` parameter is accepted and ignored, as in the source. -/
def headingRemoveE (h : HeadingState) (ms : List HeadingRemovable)
    (ai : Bool) : Except String HeadingState :=
  let h1 := ms.foldl
    (fun st m =>
      match m with
      | .folderElem fid => { st with store := storeUpdate fid clearFM st.store }
      | .fileElem _ => st)
    h
  let fileMatches := ms.filterMap fun m =>
    match m with
    | .fileElem r => some (FileMatchRaw.mk r)
    | .folderElem _ => none
  match groupFilesByFolder h1 fileMatches with
  | .error e => .error e
  | .ok (byFolder, other) =>
      let h2 := dispatchRemoveByFolder byFolder h1
      let h3 :=
        match other with
        | [] => h2
        | raw0 :: _ =>
            match getFolderMatchId h2 raw0.resource with
            | none => h2
            | some fid =>
                { h2 with store := storeUpdate fid (removeFilesFM other) h2.store }
      .ok h3

/-- `SearchResultImpl` owns exactly one plain heading and one AI heading. -/
structure SearchResultState where
  plainText : HeadingState
  aiText : HeadingState

/-- `SearchResultImpl.remove(matches, ai)`: when `ai` is true the removal is
forwarded to the AI heading, and then — with no `else` — it is always also
forwarded to the plain-text heading. -/
def searchResultRemoveE (s : SearchResultState) (ms : List HeadingRemovable)
    (ai : Bool) : Except String SearchResultState :=
  match (if ai then (headingRemoveE s.aiText ms ai).map
            (fun h => { s with aiText := h })
          else .ok s) with
  | .error e => .error e
  | .ok s1 =>
      match headingRemoveE s1.plainText ms ai with
      | .error e => .error e
      | .ok h => .ok { s1 with plainText := h }

/-! ### batchRemove (src/unnamed/part_010) -/

/-- `RenderableMatch`: the renderable tree elements `batchRemove` receives,
with their `parent()` chains.  A heading's parent is the SearchResult, which
is not itself a renderable match, so the chain ends there. -/
inductive RenderableMatch : Type where
  | searchMatchElem (mid : Nat) (parent : RenderableMatch)
  | fileMatchElem (mid : Nat) (parent : RenderableMatch)
  | folderMatchElem (mid : Nat) (withResource : Bool) (parent : RenderableMatch)
  | headingElem (ai : Bool)
deriving DecidableEq, Repr

def isTextSearchHeading : RenderableMatch → Bool
  | .headingElem _ => true
  | _ => false

def isFolderMatch : RenderableMatch → Bool
  | .folderMatchElem _ _ _ => true
  | _ => false

def isFolderMatchWithResource : RenderableMatch → Bool
  | .folderMatchElem _ w _ => w
  | _ => false

/-- Modelled from the spec: `arrayContainsElementOrParent` from
searchTreeCommon.js (not part of the repository snapshot) — per the spec the
batch operations "skip any children who have parents in the array", so the
test succeeds when the element itself or any ancestor reached through
`parent()` is in the array. -/
def containsElementOrParent (e : RenderableMatch) (arr : List RenderableMatch) : Bool :=
  arr.contains e ||
    (match e with
     | .searchMatchElem _ p => containsElementOrParent p arr
     | .fileMatchElem _ p => containsElementOrParent p arr
     | .folderMatchElem _ _ p => containsElementOrParent p arr
     | .headingElem _ => false)

/-- The observable events of one `batchRemove` run.  `removeCallEv` is the
event a `currentElement.parent().remove(currentElement)` call would log; the
source contains that call only as a comment, so the embedding never emits
it. -/
inductive BatchEv : Type where
  | pauseEv
  | resumeEv
  | hideEv (ai : Bool)
  | pushRemovedEv (e : RenderableMatch)
  | removeCallEv (e : RenderableMatch)
deriving DecidableEq, Repr

/-- Hiding one of the two headings of a SearchResult. -/
def hideHeading (s : SearchResultState) (ai : Bool) : SearchResultState :=
  if ai then { s with aiText := hideH s.aiText }
  else { s with plainText := hideH s.plainText }

/-- `SearchResultImpl.batchRemove(elementsToRemove)`: pause the change
emitter; for each element not already covered by `removedElems`, hide it if
it is a heading, and otherwise — unless it is a folder match without a
resource — record it in `removedElems`; finally resume the emitter.  The
removal call itself (`currentElement.parent().remove(currentElement)`) is
commented out in the source, so no element is removed from the tree; the
event trace therefore never contains a `removeCallEv`. -/
def searchResultBatchRemove (s : SearchResultState)
    (elementsToRemove : List RenderableMatch) :
    SearchResultState × List RenderableMatch × List BatchEv :=
  let run := elementsToRemove.foldl
    (fun (acc : SearchResultState × List RenderableMatch × List BatchEv) cur =>
      if !(containsElementOrParent cur acc.2.1) then
        match cur with
        | .headingElem ai =>
            (hideHeading acc.1 ai, acc.2.1, acc.2.2 ++ [BatchEv.hideEv ai])
        | _ =>
            if !(isFolderMatch cur) || isFolderMatchWithResource cur then
              (acc.1, acc.2.1 ++ [cur], acc.2.2 ++ [BatchEv.pushRemovedEv cur])
            else acc
      else acc)
    (s, [], [BatchEv.pauseEv])
  (run.1, run.2.1, run.2.2 ++ [BatchEv.resumeEv])

/-! ### Well-formedness of a heading state

The conjunction of facts that hold for every heading state reachable through
the API and that the claims below need: distinct folder-match identities, a
live object with a folder resource behind every workspace-root identity, an
object without a resource behind the "other files" identity, lookup-trie
payloads drawn from the workspace-root identities, and all heap keys below
the allocation counter. -/

def optTest (p : FolderMatchObj → Bool) : Option FolderMatchObj → Bool
  | some fm => p fm
  | none => false

def nodupNat : List Nat → Bool
  | [] => true
  | k :: rest => !(rest.contains k) && nodupNat rest

def headingWF (h : HeadingState) : Bool :=
  nodupNat h.folderMatchIds &&
  h.folderMatchIds.all
    (fun fid => optTest (fun fm => fm.resource.isSome) (storeGet h.store fid)) &&
  (match h.otherFilesMatchId with
   | some oid =>
       optTest (fun fm => fm.resource.isNone) (storeGet h.store oid) &&
       !(h.folderMatchIds.contains oid)
   | none => true) &&
  trieAll (fun fid => h.folderMatchIds.contains fid) h.folderMap &&
  h.store.all (fun e => decide (e.1 < h.nextId))

/-- All fields of a heading state except the heap and the dirty flag agree
with `h` — the frame that `add` (dispatch, other-bucket dispatch and
`disposePastResults`) preserves. -/
def sameShape (h st : HeadingState) : Prop :=
  st.folderMatchIds = h.folderMatchIds ∧
  st.otherFilesMatchId = h.otherFilesMatchId ∧ st.folderMap = h.folderMap ∧
  st.query = h.query ∧ st.cachedSearchComplete = h.cachedSearchComplete ∧
  st.highlightRange = h.highlightRange ∧ st.pastResults = h.pastResults ∧
  st.hidden = h.hidden ∧ st.allowOtherResults = h.allowOtherResults

/-! ### Concrete states used by witnesses and counterexamples -/

def exFolderObj : FolderMatchObj :=
  { resource := some "root", fid := "root", index := 0,
    fileMatches := ["root/f.ts"], clearCount := 0, disposed := false,
    disposeCount := 0, replacingAll := false }

def exOtherObj : FolderMatchObj :=
  { resource := none, fid := "otherFiles", index := 2, fileMatches := [],
    clearCount := 0, disposed := false, disposeCount := 0, replacingAll := false }

/-- A plain-text heading holding one workspace-root folder match (with one
file match) and an "other files" bucket. -/
def exHeadingPlain : HeadingState :=
  { store := [(0, exFolderObj), (1, exOtherObj)], nextId := 2,
    folderMatchIds := [0], otherFilesMatchId := some 1,
    folderMap := setSeg 0 (toSegments "root") (PathTrieNode.node none []),
    query := some { folderQueries := ["root"] }, cachedSearchComplete := none,
    highlightRange := none, pastResults := none, isDirty := false,
    hidden := false, allowOtherResults := true }

/-- An AI heading with no results yet. -/
def exHeadingAI : HeadingState :=
  { store := [], nextId := 0, folderMatchIds := [], otherFilesMatchId := none,
    folderMap := PathTrieNode.node none [], query := none,
    cachedSearchComplete := none, highlightRange := none, pastResults := none,
    isDirty := false, hidden := false, allowOtherResults := true }

def exSearchResult : SearchResultState :=
  { plainText := exHeadingPlain, aiText := exHeadingAI }

/-- A file-instance match under a folder match that is not itself part of the
batch. -/
def exRemovableFile : RenderableMatch :=
  .fileMatchElem 10 (.folderMatchElem 11 true (.headingElem false))

def exRemoveMs : List HeadingRemovable := [HeadingRemovable.fileElem "root/f.ts"]

/-- The AI heading after removing `exRemoveMs` (computed, not spelled out). -/
def exRemovedAI : HeadingState :=
  match headingRemoveE exHeadingAI exRemoveMs true with
  | .ok x => x
  | .error _ => exHeadingAI

/-- The plain heading after removing `exRemoveMs`. -/
def exRemovedPlain : HeadingState :=
  match headingRemoveE exHeadingPlain exRemoveMs true with
  | .ok x => x
  | .error _ => exHeadingPlain

/-- A replacement query, used to exercise the query setter's teardown. -/
def exQ2 : TextQuery := { folderQueries := ["s"] }

def exAfterQuery : HeadingState := setQueryH exHeadingPlain (some exQ2)

/-- The heading and dispatch log after the first `add` following the query
replacement. -/
def exAddPair1 : HeadingState × List (Nat × List FileMatchRaw) :=
  match headingAddE exAfterQuery [] "i" false false with
  | .ok p => p
  | .error _ => (exAfterQuery, [])

/-- The heading and dispatch log after a second `add`. -/
def exAddPair2 : HeadingState × List (Nat × List FileMatchRaw) :=
  match headingAddE exAddPair1.1 [] "i" false false with
  | .ok p => p
  | .error _ => (exAddPair1.1, [])

/-- Raw matches for an AI add: one under the workspace root, one under no
configured root. -/
def exAIRaws : List FileMatchRaw :=
  [FileMatchRaw.mk "root/a.ts", FileMatchRaw.mk "zzz/b.ts"]

/-- The heading and dispatch log after an `add` with `ai = true`. -/
def exAddAIPair : HeadingState × List (Nat × List FileMatchRaw) :=
  match headingAddE exHeadingPlain exAIRaws "i" true false with
  | .ok p => p
  | .error _ => (exHeadingPlain, [])

/-! ### Association-list lemmas for child maps -/

theorem childGet_childSet_self (s : String) (n : PathTrieNode T)
    (ch : List (String × PathTrieNode T)) :
    childGet s (childSet s n ch) = some n := by
  induction ch with
  | nil => simp [childSet, childGet]
  | cons p rest ih =>
      obtain ⟨k, m⟩ := p
      by_cases hk : k = s
      · simp [childSet, childGet, hk]
      · simp [childSet, childGet, hk, ih]

theorem childGet_childSet_ne (hks : k ≠ s) (n : PathTrieNode T)
    (ch : List (String × PathTrieNode T)) :
    childGet k (childSet s n ch) = childGet k ch := by
  induction ch with
  | nil => simp [childSet, childGet, Ne.symm hks]
  | cons p rest ih =>
      obtain ⟨k', m⟩ := p
      by_cases hk : k' = s
      · subst hk
        simp [childSet, childGet, Ne.symm hks]
      · simp only [childSet, if_neg hk]
        by_cases hk2 : k' = k
        · subst hk2
          simp [childGet]
        · simp [childGet, hk2, ih]

theorem childGet_eq_none_of_not_contains (s : String)
    (ch : List (String × PathTrieNode T))
    (h : (childKeys ch).contains s = false) :
    childGet s ch = none := by
  induction ch with
  | nil => simp [childGet]
  | cons p rest ih =>
      obtain ⟨k, m⟩ := p
      simp only [childKeys, List.map_cons, List.contains_cons, Bool.or_eq_false_iff] at h
      have hk : k ≠ s := by
        intro he
        subst he
        simp at h
      simp [childGet, hk]
      exact ih h.2

theorem childGet_childErase_childSet (s : String) (n : PathTrieNode T)
    (ch : List (String × PathTrieNode T))
    (hnd : nodupKeys (childKeys ch) = true) :
    childGet s (childErase s (childSet s n ch)) = none := by
  induction ch with
  | nil => simp [childSet, childErase, childGet]
  | cons p rest ih =>
      obtain ⟨k, m⟩ := p
      simp only [childKeys, List.map_cons, nodupKeys, Bool.and_eq_true,
        Bool.not_eq_true'] at hnd
      by_cases hk : k = s
      · subst hk
        simp [childSet, childErase]
        exact childGet_eq_none_of_not_contains _ _ hnd.1
      · simp [childSet, childErase, childGet, hk]
        exact ih hnd.2

theorem wfNode_node (d : Option T) (ch : List (String × PathTrieNode T))
    (h : wfNode (.node d ch) = true) :
    nodupKeys (childKeys ch) = true ∧ wfChildren ch = true := by
  rw [wfNode] at h
  exact Bool.and_eq_true_iff.mp h

theorem wfChildren_childGet (s : String) (c : PathTrieNode T)
    (ch : List (String × PathTrieNode T))
    (hwf : wfChildren ch = true) (hget : childGet s ch = some c) :
    wfNode c = true := by
  induction ch with
  | nil => simp [childGet] at hget
  | cons p rest ih =>
      obtain ⟨k, m⟩ := p
      rw [wfChildren] at hwf
      have hwf' := Bool.and_eq_true_iff.mp hwf
      by_cases hk : k = s
      · simp [childGet, hk] at hget
        exact hget ▸ hwf'.1
      · simp [childGet, hk] at hget
        exact ih hwf'.2 hget

theorem wfNode_empty : wfNode (PathTrie.empty T) = true := by
  rw [PathTrie.empty, wfNode]
  simp [childKeys, nodupKeys, wfChildren]

/-! ### Round-trip (claim C6) -/

theorem getSeg_deleteSeg_setSeg (v : T) :
    ∀ (segs : List String) (t : PathTrieNode T),
      wfNode t = true → segs ≠ [] →
      getSeg segs (deleteSeg segs (setSeg v segs t)) = none := by
  intro segs
  induction segs with
  | nil => intro t _ hne; exact absurd rfl hne
  | cons s rest ih =>
      intro t hwf _
      obtain ⟨d, ch⟩ := t
      obtain ⟨hnd, hwfc⟩ := wfNode_node d ch hwf
      cases rest with
      | nil =>
          simp only [setSeg, deleteSeg, childGet_childSet_self]
          simp only [getSeg]
          rw [childGet_childErase_childSet _ _ _ hnd]
      | cons r rs =>
          simp only [setSeg, deleteSeg, childGet_childSet_self]
          simp only [getSeg, childGet_childSet_self]
          cases hcg : childGet s ch with
          | some c =>
              have hwfc' : wfNode c = true := wfChildren_childGet s c ch hwfc hcg
              simpa [hcg] using ih c hwfc' (by simp)
          | none =>
              have hwfe : wfNode (PathTrieNode.node (none : Option T) []) = true := by
                rw [wfNode]; simp [childKeys, nodupKeys, wfChildren]
              simpa [hcg] using ih _ hwfe (by simp)

/-- C6.  The claim quantifies over every path string including the empty
path, but `delete` on the empty path is a no-op: the walk ends at the root,
whose parent back-reference is `undefined`, so the optional-chained map
deletion does nothing and the payload written by `set("", v)` survives. -/
theorem trie_empty_path_roundtrip_cex :
    ¬ (PathTrie.get (PathTrie.delete (PathTrie.set (PathTrie.empty Nat) "" 7) "") "" =
        none) := by
  decide

/-- C6 (amended).  For every path `P` with at least one nonempty segment and
every value `v`, performing `set(P, v)` followed by `delete(P)` on any
well-formed `PathTrie` makes a subsequent `get(P)` return absent.  (For the
empty path, whose segment list is empty and which resolves to the root node,
`delete` is a no-op and the payload survives.) -/
theorem trie_set_delete_get_absent (t : PathTrieNode T) (P : String) (v : T)
    (hwf : wfNode t = true) (hne : toSegments P ≠ []) :
    PathTrie.get (PathTrie.delete (PathTrie.set t P v) P) P = none := by
  rw [PathTrie.get, PathTrie.delete, PathTrie.set]
  exact getSeg_deleteSeg_setSeg v (toSegments P) t hwf hne

theorem trie_set_delete_get_absent_witness :
    wfNode (PathTrie.empty Nat) = true ∧ toSegments "a" ≠ [] ∧
      PathTrie.get (PathTrie.delete (PathTrie.set (PathTrie.empty Nat) "a" 5) "a") "a" =
        none :=
  ⟨wfNode_empty, by decide,
    trie_set_delete_get_absent (PathTrie.empty Nat) "a" 5 wfNode_empty (by decide)⟩

/-! ### Insertion independence (claim C7) -/

theorem getSeg_setSeg_self (v : T) :
    ∀ (segs : List String) (t : PathTrieNode T),
      getSeg segs (setSeg v segs t) = some v := by
  intro segs
  induction segs with
  | nil => intro t; obtain ⟨d, ch⟩ := t; simp [setSeg, getSeg]
  | cons s rest ih =>
      intro t
      obtain ⟨d, ch⟩ := t
      simp only [setSeg, getSeg, childGet_childSet_self]
      exact ih _

theorem getSeg_setSeg_ne (v : T) :
    ∀ (segs1 segs2 : List String) (t : PathTrieNode T), segs1 ≠ segs2 →
      getSeg segs1 (setSeg v segs2 t) = getSeg segs1 t := by
  intro segs1
  induction segs1 with
  | nil =>
      intro segs2 t hne
      obtain ⟨d, ch⟩ := t
      cases segs2 with
      | nil => exact absurd rfl hne
      | cons b r2 => simp [setSeg, getSeg]
  | cons a r1 ih =>
      intro segs2 t hne
      obtain ⟨d, ch⟩ := t
      cases segs2 with
      | nil => simp [setSeg, getSeg]
      | cons b r2 =>
          by_cases hab : a = b
          · subst hab
            have hr : r1 ≠ r2 := by
              intro he; exact hne (by rw [he])
            simp only [setSeg, getSeg, childGet_childSet_self]
            cases hcg : childGet a ch with
            | some c => simpa [hcg] using ih r2 c hr
            | none =>
                simp only [hcg]
                rw [ih r2 (PathTrieNode.node none []) hr]
                cases r1 <;> simp [getSeg, childGet]
          · simp only [setSeg, getSeg, childGet_childSet_ne hab]

/-- C7.  As stated the claim fails: two distinct path strings can have the
same segment sequence, because segmentation splits on both separator kinds
and drops empty segments.  `"a"` and `"/a"` denote the same trie node, so the
second insertion overwrites the first. -/
theorem trie_get_unaffected_cex :
    ("a" : String) ≠ "/a" ∧
      PathTrie.get (PathTrie.set (PathTrie.set (PathTrie.empty Nat) "a" 1) "/a" 2) "a" =
        some 2 ∧
      PathTrie.get (PathTrie.set (PathTrie.set (PathTrie.empty Nat) "a" 1) "/a" 2) "a" ≠
        some 1 := by
  refine ⟨by decide, by decide, by decide⟩

/-- C7 (amended).  For all paths `P1`, `P2` whose segment sequences differ
(rather than merely the strings differing) and all values `v1`, `v2`,
inserting both into a `PathTrie` in either order makes `get(P1)` return
exactly `v1`: the value retrieved for `P1` is unaffected by the insertion of
`P2`. -/
theorem trie_get_unaffected_by_other_insert (t : PathTrieNode T)
    (P1 P2 : String) (v1 v2 : T) (hne : toSegments P1 ≠ toSegments P2) :
    PathTrie.get (PathTrie.set (PathTrie.set t P1 v1) P2 v2) P1 = some v1 ∧
      PathTrie.get (PathTrie.set (PathTrie.set t P2 v2) P1 v1) P1 = some v1 := by
  constructor
  · rw [PathTrie.get, PathTrie.set, PathTrie.set,
      getSeg_setSeg_ne v2 _ _ _ hne]
    exact getSeg_setSeg_self v1 _ _
  · rw [PathTrie.get, PathTrie.set, PathTrie.set]
    exact getSeg_setSeg_self v1 _ _

theorem trie_get_unaffected_by_other_insert_witness :
    toSegments "a" ≠ toSegments "b" ∧
      PathTrie.get (PathTrie.set (PathTrie.set (PathTrie.empty Nat) "a" 1) "b" 2) "a" =
        some 1 ∧
      PathTrie.get (PathTrie.set (PathTrie.set (PathTrie.empty Nat) "b" 2) "a" 1) "a" =
        some 1 :=
  ⟨by decide,
    (trie_get_unaffected_by_other_insert (PathTrie.empty Nat) "a" "b" 1 2 (by decide)).1,
    (trie_get_unaffected_by_other_insert (PathTrie.empty Nat) "a" "b" 1 2 (by decide)).2⟩

/-! ### findSubstr characterisation (claim C8) -/

theorem findSubstrSeg_eq_nodesAlong :
    ∀ (segs : List String) (t : PathTrieNode T),
      findSubstrSeg segs t = (nodesAlong segs t).filterMap PathTrieNode.data := by
  intro segs
  induction segs with
  | nil => intro t; simp [findSubstrSeg, nodesAlong]
  | cons s rest ih =>
      intro t
      obtain ⟨d, ch⟩ := t
      simp only [findSubstrSeg, nodesAlong]
      cases hcg : childGet s ch with
      | none => simp
      | some c =>
          cases hd : c.data with
          | none => simp [hd, ih]
          | some v => simp [hd, ih]

/-- C8.  `findSubstr(P)` yields exactly the payloads of the payload-bearing
nodes along the segment path from the root to `P`'s node, in root-to-leaf
order, skipping payload-free nodes, and yields nothing further once a segment
of `P` has no matching child in the trie. -/
theorem trie_findSubstr_ancestor_payloads (t : PathTrieNode T) (P : String) :
    PathTrie.findSubstr t P = ancestorPayloadsSpec t P :=
  findSubstrSeg_eq_nodesAlong (toSegments P) t

/-! ### Heap lemmas -/

theorem containsTrueIff [BEq α] [LawfulBEq α] (l : List α) (a : α) :
    l.contains a = true ↔ a ∈ l := by
  induction l with
  | nil => simp
  | cons b rest ih => simp [List.contains_cons, ih]

theorem storeGet_storeUpdate_self (k : Nat) (f : FolderMatchObj → FolderMatchObj)
    (st : Store) :
    storeGet (storeUpdate k f st) k = (storeGet st k).map f := by
  induction st with
  | nil => simp [storeUpdate, storeGet]
  | cons p rest ih =>
      obtain ⟨k', fm⟩ := p
      by_cases hk : k' = k
      · simp [storeUpdate, storeGet, hk]
      · simp [storeUpdate, storeGet, hk, ih]

theorem storeGet_storeUpdate_ne (hk : k' ≠ k) (f : FolderMatchObj → FolderMatchObj)
    (st : Store) :
    storeGet (storeUpdate k f st) k' = storeGet st k' := by
  induction st with
  | nil => simp [storeUpdate, storeGet]
  | cons p rest ih =>
      obtain ⟨k'', fm⟩ := p
      by_cases h1 : k'' = k
      · subst h1
        simp [storeUpdate, storeGet, Ne.symm hk]
      · by_cases h2 : k'' = k'
        · subst h2
          simp [storeUpdate, storeGet, h1]
        · simp [storeUpdate, storeGet, h1, h2, ih]

theorem storeGet_storeInsert_ne (hk : k' ≠ k) (fm : FolderMatchObj) (st : Store) :
    storeGet (storeInsert k fm st) k' = storeGet st k' := by
  simp [storeInsert, storeGet, Ne.symm hk]

theorem storeGet_some_mem (st : Store) (k : Nat) (fm : FolderMatchObj)
    (h : storeGet st k = some fm) : (k, fm) ∈ st := by
  induction st with
  | nil => simp [storeGet] at h
  | cons p rest ih =>
      obtain ⟨k', fm'⟩ := p
      by_cases hk : k' = k
      · subst hk
        simp [storeGet] at h
        simp [h]
      · simp [storeGet, hk] at h
        exact List.mem_cons_of_mem _ (ih h)

theorem storeGet_updateMany_not_mem (f : FolderMatchObj → FolderMatchObj) :
    ∀ (ids : List Nat) (st : Store) (k : Nat), k ∉ ids →
      storeGet (updateMany ids f st) k = storeGet st k := by
  intro ids
  induction ids with
  | nil => intro st k _; simp [updateMany]
  | cons i rest ih =>
      intro st k hk
      have hki : k ≠ i := fun he => hk (he ▸ List.mem_cons_self i rest)
      have hkr : k ∉ rest := fun hm => hk (List.mem_cons_of_mem i hm)
      show storeGet (updateMany rest f (storeUpdate i f st)) k = storeGet st k
      rw [ih (storeUpdate i f st) k hkr, storeGet_storeUpdate_ne hki]

theorem nodupNat_cons (k : Nat) (rest : List Nat)
    (h : nodupNat (k :: rest) = true) : k ∉ rest ∧ nodupNat rest = true := by
  rw [nodupNat, Bool.and_eq_true, Bool.not_eq_true'] at h
  refine ⟨fun hm => ?_, h.2⟩
  rw [← containsTrueIff rest k] at hm
  rw [h.1] at hm
  exact absurd hm (by decide)

theorem storeGet_updateMany_mem (f : FolderMatchObj → FolderMatchObj) :
    ∀ (ids : List Nat) (st : Store) (k : Nat), nodupNat ids = true → k ∈ ids →
      storeGet (updateMany ids f st) k = (storeGet st k).map f := by
  intro ids
  induction ids with
  | nil => intro st k _ hk; simp at hk
  | cons i rest ih =>
      intro st k hnd hk
      obtain ⟨hni, hndr⟩ := nodupNat_cons i rest hnd
      show storeGet (updateMany rest f (storeUpdate i f st)) k = (storeGet st k).map f
      rcases List.mem_cons.mp hk with hki | hkr
      · subst hki
        rw [storeGet_updateMany_not_mem f rest _ k hni,
          storeGet_storeUpdate_self]
      · by_cases hki : k = i
        · subst hki
          rw [storeGet_updateMany_not_mem f rest _ k hni,
            storeGet_storeUpdate_self]
        · rw [ih (storeUpdate i f st) k hndr hkr, storeGet_storeUpdate_ne hki]

/-! ### Query-null frame (claim C9) -/

/-- C9.  Setting a heading's query to null clears the cached search
completion, the highlight decoration and the URI-to-folder lookup trie, but
— because the setter returns before `this._query = query` — leaves the
stored query, the heap, the folder-match list and `folderMatches()` exactly
as they were. -/
theorem query_null_frame (h : HeadingState) :
    (setQueryH h none).query = h.query ∧
    (setQueryH h none).folderMatchIds = h.folderMatchIds ∧
    (setQueryH h none).otherFilesMatchId = h.otherFilesMatchId ∧
    headingFolderIds (setQueryH h none) = headingFolderIds h ∧
    (setQueryH h none).store = h.store ∧
    (setQueryH h none).cachedSearchComplete = none ∧
    (setQueryH h none).highlightRange = none ∧
    (setQueryH h none).folderMap = PathTrieNode.node none [] := by
  refine ⟨rfl, rfl, rfl, ?_, rfl, rfl, rfl, rfl⟩
  simp [setQueryH, setQueryCore, headingFolderIds]

/-! ### batchRemove does not remove (claim C2) -/

/-- C2.  On a batch consisting of one file-instance match whose ancestor
folder is not in the batch, `batchRemove` pauses the emitter, records the
element in `removedElems` and resumes the emitter — but the tree is returned
unchanged and no removal call is ever made, because the source line
`currentElement.parent().remove(currentElement)` is commented out.  The
claim's (and the spec's) removal of such elements therefore does not
happen. -/
theorem batchRemove_leaves_tree_unchanged :
    searchResultBatchRemove exSearchResult [exRemovableFile] =
      (exSearchResult, [exRemovableFile],
        [BatchEv.pauseEv, BatchEv.pushRemovedEv exRemovableFile,
          BatchEv.resumeEv]) := rfl

/-! ### SearchResult.remove falls through to the plain heading (claim C1) -/

/-- C1.  `SearchResultImpl.remove` called with `ai = true` forwards the
removal to the AI heading and then — the statement after the `if` has no
`else` — unconditionally forwards the same matches to the plain-text
heading; for every `ai` flag, a successful removal always carries the plain
heading's processing of the matches, so a removal restricted to the AI
heading alone never occurs. -/
theorem searchResult_remove_forwards_to_plain
    (s : SearchResultState) (ms : List HeadingRemovable) :
    (∀ hAI hPl, headingRemoveE s.aiText ms true = .ok hAI →
      headingRemoveE s.plainText ms true = .ok hPl →
      searchResultRemoveE s ms true = .ok { s with aiText := hAI, plainText := hPl }) ∧
    (∀ ai s', searchResultRemoveE s ms ai = .ok s' →
      headingRemoveE s.plainText ms ai = .ok s'.plainText) := by
  constructor
  · intro hAI hPl h1 h2
    simp [searchResultRemoveE, Except.map, h1, h2]
  · intro ai s' hok
    cases ai with
    | false =>
        simp only [searchResultRemoveE, Bool.false_eq_true, if_false] at hok
        cases hpl : headingRemoveE s.plainText ms false with
        | error e => rw [hpl] at hok; exact absurd hok (by simp)
        | ok hp =>
            rw [hpl] at hok
            simp only [Except.ok.injEq] at hok
            rw [← hok]
    | true =>
        simp only [searchResultRemoveE, if_true] at hok
        cases hai : headingRemoveE s.aiText ms true with
        | error e =>
            rw [hai] at hok
            exact absurd hok (by simp [Except.map])
        | ok ha =>
            rw [hai] at hok
            simp only [Except.map] at hok
            cases hpl : headingRemoveE s.plainText ms true with
            | error e => rw [hpl] at hok; exact absurd hok (by simp)
            | ok hp =>
                rw [hpl] at hok
                simp only [Except.ok.injEq] at hok
                rw [← hok]

theorem searchResult_remove_forwards_to_plain_witness :
    searchResultRemoveE exSearchResult exRemoveMs true =
      .ok { exSearchResult with aiText := exRemovedAI, plainText := exRemovedPlain } :=
  (searchResult_remove_forwards_to_plain exSearchResult exRemoveMs).1
    exRemovedAI exRemovedPlain rfl rfl

/-! ### replaceAll outcomes (claim C3) -/

theorem optTest_some (p : FolderMatchObj → Bool) (o : Option FolderMatchObj)
    (h : optTest p o = true) : ∃ fm, o = some fm ∧ p fm = true := by
  cases o with
  | none => simp [optTest] at h
  | some fm => exact ⟨fm, rfl, h⟩

/-- C3.  `PlainTextSearchHeadingImpl.replaceAll` delegates the substitution
to the replace collaborator and awaits its promise (the `ReplaceOutcome`
parameter).  If the promise rejects, the replacing flag of every folder
match is reset and the result set is untouched: the folder lists, query,
cached completion and every object's file matches and clear count are
unchanged — no matches are cleared.  If it resolves, the flag is reset and
the heading clears itself: the folder lists are emptied and every previous
folder match's file matches are gone. -/
theorem replaceAll_outcomes (h : HeadingState)
    (hnd : nodupNat (headingFolderIds h) = true)
    (hlive : ∀ fid ∈ headingFolderIds h,
      optTest (fun fm => !fm.disposed) (storeGet h.store fid) = true) :
    ((replaceAllH h .failure).folderMatchIds = h.folderMatchIds ∧
     (replaceAllH h .failure).otherFilesMatchId = h.otherFilesMatchId ∧
     (replaceAllH h .failure).query = h.query ∧
     (replaceAllH h .failure).cachedSearchComplete = h.cachedSearchComplete ∧
     (∀ k, (storeGet (replaceAllH h .failure).store k).map FolderMatchObj.fileMatches =
        (storeGet h.store k).map FolderMatchObj.fileMatches) ∧
     (∀ k, (storeGet (replaceAllH h .failure).store k).map FolderMatchObj.clearCount =
        (storeGet h.store k).map FolderMatchObj.clearCount) ∧
     (∀ fid ∈ headingFolderIds h,
        optTest (fun fm => !fm.replacingAll)
          (storeGet (replaceAllH h .failure).store fid) = true)) ∧
    ((replaceAllH h .success).folderMatchIds = [] ∧
     (replaceAllH h .success).otherFilesMatchId = none ∧
     (∀ fid ∈ headingFolderIds h,
        optTest (fun fm => fm.fileMatches.isEmpty && !fm.replacingAll)
          (storeGet (replaceAllH h .success).store fid) = true)) := by
  have hfailstore : (replaceAllH h .failure).store =
      updateMany (headingFolderIds h) (setReplacingFM false)
        (updateMany (headingFolderIds h) (setReplacingFM true) h.store) := rfl
  have hsuccstore : (replaceAllH h .success).store =
      updateMany (headingFolderIds h) disposeFM
        (updateMany (headingFolderIds h) clearFM
          (updateMany (headingFolderIds h) (setReplacingFM false)
            (updateMany (headingFolderIds h) (setReplacingFM true) h.store))) := rfl
  refine ⟨⟨rfl, rfl, rfl, rfl, ?_, ?_, ?_⟩, rfl, rfl, ?_⟩
  · intro k
    rw [hfailstore]
    by_cases hk : k ∈ headingFolderIds h
    · rw [storeGet_updateMany_mem _ _ _ _ hnd hk,
        storeGet_updateMany_mem _ _ _ _ hnd hk]
      cases storeGet h.store k <;> simp [setReplacingFM]
    · rw [storeGet_updateMany_not_mem _ _ _ _ hk,
        storeGet_updateMany_not_mem _ _ _ _ hk]
  · intro k
    rw [hfailstore]
    by_cases hk : k ∈ headingFolderIds h
    · rw [storeGet_updateMany_mem _ _ _ _ hnd hk,
        storeGet_updateMany_mem _ _ _ _ hnd hk]
      cases storeGet h.store k <;> simp [setReplacingFM]
    · rw [storeGet_updateMany_not_mem _ _ _ _ hk,
        storeGet_updateMany_not_mem _ _ _ _ hk]
  · intro fid hfid
    obtain ⟨fm, hfm, _⟩ := optTest_some _ _ (hlive fid hfid)
    rw [hfailstore, storeGet_updateMany_mem _ _ _ _ hnd hfid,
      storeGet_updateMany_mem _ _ _ _ hnd hfid, hfm]
    simp [setReplacingFM, optTest]
  · intro fid hfid
    obtain ⟨fm, hfm, hd⟩ := optTest_some _ _ (hlive fid hfid)
    rw [Bool.not_eq_true'] at hd
    rw [hsuccstore, storeGet_updateMany_mem _ _ _ _ hnd hfid,
      storeGet_updateMany_mem _ _ _ _ hnd hfid,
      storeGet_updateMany_mem _ _ _ _ hnd hfid,
      storeGet_updateMany_mem _ _ _ _ hnd hfid, hfm]
    simp [setReplacingFM, clearFM, disposeFM, optTest, hd]

theorem replaceAll_outcomes_witness :
    optTest (fun fm => fm.fileMatches.isEmpty && !fm.replacingAll)
      (storeGet (replaceAllH exHeadingPlain .success).store 0) = true :=
  (replaceAll_outcomes exHeadingPlain (by decide) (by decide)).2.2.2 0 (by decide)

/-! ### Bucket-map lemmas -/

theorem bucketsHasKey_iff_isSome (r : String) (b : Buckets) :
    bucketsHasKey r b = true ↔ ∃ l, bucketsGet r b = some l := by
  induction b with
  | nil => simp [bucketsHasKey, bucketsGet]
  | cons p rest ih =>
      obtain ⟨k, l⟩ := p
      by_cases hk : k = r
      · simp [bucketsHasKey, bucketsGet, hk]
      · simp [bucketsHasKey, bucketsGet, hk, ih]

theorem bucketsPush_of_hasKey (r : String) (raw : FileMatchRaw) (b : Buckets)
    (hk : bucketsHasKey r b = true) :
    ∃ b', bucketsPush r raw b = some b' := by
  induction b with
  | nil => simp [bucketsHasKey] at hk
  | cons p rest ih =>
      obtain ⟨k, l⟩ := p
      by_cases hkr : k = r
      · exact ⟨(k, l ++ [raw]) :: rest, by simp [bucketsPush, hkr]⟩
      · rw [bucketsHasKey] at hk
        simp only [Bool.or_eq_true] at hk
        rcases hk with hk | hk
        · exact absurd (by simpa using hk) hkr
        · obtain ⟨b', hb'⟩ := ih hk
          exact ⟨(k, l) :: b', by simp [bucketsPush, hkr, hb']⟩

theorem bucketsGet_push_self (r : String) (raw : FileMatchRaw) :
    ∀ (b b' : Buckets), bucketsPush r raw b = some b' →
      bucketsGet r b' = (bucketsGet r b).map (· ++ [raw]) := by
  intro b
  induction b with
  | nil => intro b' h; simp [bucketsPush] at h
  | cons p rest ih =>
      intro b' h
      obtain ⟨k, l⟩ := p
      by_cases hk : k = r
      · simp only [bucketsPush, if_pos hk] at h
        simp only [Option.some.injEq] at h
        subst h
        simp [bucketsGet, hk]
      · simp only [bucketsPush, if_neg hk] at h
        cases hp : bucketsPush r raw rest with
        | none => rw [hp] at h; simp at h
        | some b2 =>
            rw [hp] at h
            simp only [Option.map_some', Option.some.injEq] at h
            subst h
            simp [bucketsGet, hk, ih b2 hp]

theorem bucketsGet_push_ne (r r' : String) (raw : FileMatchRaw) (hr : r' ≠ r) :
    ∀ (b b' : Buckets), bucketsPush r raw b = some b' →
      bucketsGet r' b' = bucketsGet r' b := by
  intro b
  induction b with
  | nil => intro b' h; simp [bucketsPush] at h
  | cons p rest ih =>
      intro b' h
      obtain ⟨k, l⟩ := p
      by_cases hk : k = r
      · simp only [bucketsPush, if_pos hk] at h
        simp only [Option.some.injEq] at h
        subst h
        have hkr' : k ≠ r' := fun he => hr (hk ▸ he ▸ rfl)
        simp [bucketsGet, hkr']
      · simp only [bucketsPush, if_neg hk] at h
        cases hp : bucketsPush r raw rest with
        | none => rw [hp] at h; simp at h
        | some b2 =>
            rw [hp] at h
            simp only [Option.map_some', Option.some.injEq] at h
            subst h
            by_cases hk' : k = r'
            · simp [bucketsGet, hk']
            · simp [bucketsGet, hk', ih b2 hp]

theorem bucketsKeys_push (r : String) (raw : FileMatchRaw) :
    ∀ (b b' : Buckets), bucketsPush r raw b = some b' →
      bucketsKeys b' = bucketsKeys b := by
  intro b
  induction b with
  | nil => intro b' h; simp [bucketsPush] at h
  | cons p rest ih =>
      intro b' h
      obtain ⟨k, l⟩ := p
      by_cases hk : k = r
      · simp only [bucketsPush, if_pos hk] at h
        simp only [Option.some.injEq] at h
        subst h
        simp [bucketsKeys]
      · simp only [bucketsPush, if_neg hk] at h
        cases hp : bucketsPush r raw rest with
        | none => rw [hp] at h; simp at h
        | some b2 =>
            rw [hp] at h
            simp only [Option.map_some', Option.some.injEq] at h
            subst h
            simp only [bucketsKeys, List.map_cons]
            rw [show b2.map Prod.fst = bucketsKeys b2 from rfl,
              show rest.map Prod.fst = bucketsKeys rest from rfl, ih b2 hp]

theorem bucketsHasKey_eq_keys (r : String) (b : Buckets) :
    bucketsHasKey r b = (bucketsKeys b).contains r := by
  induction b with
  | nil => simp [bucketsHasKey, bucketsKeys]
  | cons p rest ih =>
      obtain ⟨k, l⟩ := p
      simp only [bucketsHasKey, bucketsKeys, List.map_cons, List.contains_cons, ih]
      by_cases hk : k = r
      · simp [hk, beq_iff_eq]
      · have : ¬ (r == k) = true := by simp [beq_iff_eq]; exact fun he => hk he.symm
        simp [hk, bucketsKeys]
        intro he
        exact absurd he.symm hk

theorem bucketsGet_bucketsSet_self (r : String) (l : List FileMatchRaw) (b : Buckets) :
    bucketsGet r (bucketsSet r l b) = some l := by
  induction b with
  | nil => simp [bucketsSet, bucketsGet]
  | cons p rest ih =>
      obtain ⟨k, l'⟩ := p
      by_cases hk : k = r
      · simp [bucketsSet, bucketsGet, hk]
      · simp [bucketsSet, bucketsGet, hk, ih]

theorem bucketsGet_bucketsSet_ne (r r' : String) (hr : r' ≠ r)
    (l : List FileMatchRaw) (b : Buckets) :
    bucketsGet r' (bucketsSet r l b) = bucketsGet r' b := by
  induction b with
  | nil => simp [bucketsSet, bucketsGet, Ne.symm hr]
  | cons p rest ih =>
      obtain ⟨k, l'⟩ := p
      by_cases hk : k = r
      · simp only [bucketsSet, if_pos hk]
        have hkr' : ¬ k = r' := fun he => hr (he ▸ hk)
        simp [bucketsGet, hkr']
      · simp only [bucketsSet, if_neg hk]
        by_cases hk' : k = r'
        · simp [bucketsGet, hk']
        · simp [bucketsGet, hk', ih]

theorem bucketsHasKey_bucketsSet_self (r : String) (l : List FileMatchRaw)
    (b : Buckets) : bucketsHasKey r (bucketsSet r l b) = true := by
  rw [bucketsHasKey_iff_isSome]
  exact ⟨l, bucketsGet_bucketsSet_self r l b⟩

theorem bucketsHasKey_bucketsSet_mono (r r' : String) (l : List FileMatchRaw)
    (b : Buckets) (hk : bucketsHasKey r' b = true) :
    bucketsHasKey r' (bucketsSet r l b) = true := by
  by_cases hr : r' = r
  · subst hr
    exact bucketsHasKey_bucketsSet_self r' l b
  · rw [bucketsHasKey_iff_isSome] at hk ⊢
    obtain ⟨l', hl'⟩ := hk
    exact ⟨l', by rw [bucketsGet_bucketsSet_ne r r' hr l b]; exact hl'⟩

/-! ### Seed-bucket lemmas -/

theorem seedBuckets_aux_mono (st : Store) :
    ∀ (ids : List Nat) (b0 : Buckets) (r : String),
      bucketsHasKey r b0 = true →
      bucketsHasKey r
        (ids.foldl (fun b fid =>
          match storeGet st fid with
          | some fm => match fm.resource with
              | some r' => bucketsSet r' [] b
              | none => b
          | none => b) b0) = true := by
  intro ids
  induction ids with
  | nil => intro b0 r h; exact h
  | cons i rest ih =>
      intro b0 r h
      simp only [List.foldl_cons]
      cases hsg : storeGet st i with
      | none =>
          simp only [hsg]
          exact ih b0 r h
      | some fm =>
          simp only [hsg]
          cases hres : fm.resource with
          | none =>
              simp only [hres]
              exact ih b0 r h
          | some r' =>
              simp only [hres]
              exact ih _ r (bucketsHasKey_bucketsSet_mono r' r [] b0 h)

theorem seedBuckets_aux_hasKey (st : Store) :
    ∀ (ids : List Nat) (b0 : Buckets) (fid : Nat) (fm : FolderMatchObj) (r : String),
      fid ∈ ids → storeGet st fid = some fm → fm.resource = some r →
      bucketsHasKey r
        (ids.foldl (fun b fid =>
          match storeGet st fid with
          | some fm => match fm.resource with
              | some r' => bucketsSet r' [] b
              | none => b
          | none => b) b0) = true := by
  intro ids
  induction ids with
  | nil => intro b0 fid fm r h; simp at h
  | cons i rest ih =>
      intro b0 fid fm r hmem hsg hres
      simp only [List.foldl_cons]
      rcases List.mem_cons.mp hmem with he | hm
      · subst he
        simp only [hsg, hres]
        exact seedBuckets_aux_mono st rest _ r (bucketsHasKey_bucketsSet_self r [] b0)
      · cases hsg2 : storeGet st i with
        | none =>
            simp only [hsg2]
            exact ih _ fid fm r hm hsg hres
        | some fm2 =>
            simp only [hsg2]
            cases hres2 : fm2.resource with
            | none =>
                simp only [hres2]
                exact ih _ fid fm r hm hsg hres
            | some r2 =>
                simp only [hres2]
                exact ih _ fid fm r hm hsg hres

theorem seedBuckets_hasKey (h : HeadingState) (fid : Nat) (fm : FolderMatchObj)
    (r : String) (hmem : fid ∈ h.folderMatchIds)
    (hsg : storeGet h.store fid = some fm) (hres : fm.resource = some r) :
    bucketsHasKey r (seedBuckets h) = true :=
  seedBuckets_aux_hasKey h.store h.folderMatchIds [] fid fm r hmem hsg hres

theorem seedBuckets_aux_get_nil (st : Store) :
    ∀ (ids : List Nat) (b0 : Buckets),
      (∀ r l, bucketsGet r b0 = some l → l = []) →
      ∀ r l, bucketsGet r
        (ids.foldl (fun b fid =>
          match storeGet st fid with
          | some fm => match fm.resource with
              | some r' => bucketsSet r' [] b
              | none => b
          | none => b) b0) = some l → l = [] := by
  intro ids
  induction ids with
  | nil => intro b0 h r l hg; exact h r l hg
  | cons i rest ih =>
      intro b0 h r l hg
      simp only [List.foldl_cons] at hg
      cases hsg : storeGet st i with
      | none =>
          simp only [hsg] at hg
          exact ih b0 h r l hg
      | some fm =>
          simp only [hsg] at hg
          cases hres : fm.resource with
          | none =>
              simp only [hres] at hg
              exact ih b0 h r l hg
          | some r2 =>
              simp only [hres] at hg
              refine ih _ ?_ r l hg
              intro r' l' hg'
              by_cases hr : r' = r2
              · subst hr
                rw [bucketsGet_bucketsSet_self] at hg'
                injection hg' with hg2
                exact hg2.symm
              · rw [bucketsGet_bucketsSet_ne r2 r' hr] at hg'
                exact h r' l' hg' 

theorem seedBuckets_get_nil (h : HeadingState) (r : String) (l : List FileMatchRaw)
    (hg : bucketsGet r (seedBuckets h) = some l) : l = [] :=
  seedBuckets_aux_get_nil h.store h.folderMatchIds [] (by simp [bucketsGet]) r l hg

/-! ### Trie payload lemmas -/

theorem trieAllChildren_childGet (p : T → Bool) (s : String) (c : PathTrieNode T) :
    ∀ ch, trieAllChildren p ch = true → childGet s ch = some c →
      trieAll p c = true := by
  intro ch
  induction ch with
  | nil => intro _ hg; simp [childGet] at hg
  | cons q rest ih =>
      intro hall hg
      obtain ⟨k, m⟩ := q
      rw [trieAllChildren, Bool.and_eq_true] at hall
      by_cases hk : k = s
      · simp [childGet, hk] at hg
        exact hg ▸ hall.1
      · simp [childGet, hk] at hg
        exact ih hall.2 hg

theorem trieAll_findSubstr (p : T → Bool) :
    ∀ (segs : List String) (t : PathTrieNode T), trieAll p t = true →
      ∀ v ∈ findSubstrSeg segs t, p v = true := by
  intro segs
  induction segs with
  | nil => intro t _ v hv; simp [findSubstrSeg] at hv
  | cons s rest ih =>
      intro t hall v hv
      obtain ⟨d, ch⟩ := t
      simp only [trieAll] at hall
      rw [Bool.and_eq_true] at hall
      rw [findSubstrSeg] at hv
      cases hcg : childGet s ch with
      | none => simp only [hcg] at hv; simp at hv
      | some c =>
          simp only [hcg] at hv
          have hc : trieAll p c = true :=
            trieAllChildren_childGet p s c ch hall.2 hcg
          cases hd : c.data with
          | none =>
              simp only [hd] at hv
              exact ih c hc v hv
          | some w =>
              simp only [hd] at hv
              rcases List.mem_cons.mp hv with he | hm
              · subst he
                obtain ⟨dc, chc⟩ := c
                simp only [trieAll] at hc
                rw [Bool.and_eq_true] at hc
                simp [PathTrieNode.data] at hd
                rw [hd] at hc
                exact hc.1
              · exact ih c hc v hm

theorem getLast?_mem : ∀ (l : List T) (a : T), l.getLast? = some a → a ∈ l := by
  intro l
  induction l with
  | nil => intro a h; simp at h
  | cons x rest ih =>
      intro a h
      cases rest with
      | nil =>
          simp [List.getLast?] at h
          simp [h]
      | cons y ys =>
          rw [List.getLast?_cons_cons] at h
          exact List.mem_cons_of_mem x (ih a h)

theorem mapFindSubstr_mem (t : PathTrieNode Nat) (path : String) (fid : Nat)
    (h : mapFindSubstr t path = some fid) :
    fid ∈ findSubstrSeg (toSegments path) t :=
  getLast?_mem _ fid h

/-! ### Unpacking headingWF -/

theorem headingWF_parts (h : HeadingState) (hwf : headingWF h = true) :
    nodupNat h.folderMatchIds = true ∧
    (∀ fid ∈ h.folderMatchIds,
      optTest (fun fm => fm.resource.isSome) (storeGet h.store fid) = true) ∧
    (∀ oid, h.otherFilesMatchId = some oid →
      optTest (fun fm => fm.resource.isNone) (storeGet h.store oid) = true ∧
        oid ∉ h.folderMatchIds) ∧
    trieAll (fun fid => h.folderMatchIds.contains fid) h.folderMap = true ∧
    (∀ e ∈ h.store, e.1 < h.nextId) := by
  rw [headingWF] at hwf
  simp only [Bool.and_eq_true] at hwf
  obtain ⟨⟨⟨⟨hnd, hfold⟩, hother⟩, htrie⟩, hstore⟩ := hwf
  refine ⟨hnd, ?_, ?_, htrie, ?_⟩
  · intro fid hfid
    exact (List.all_eq_true.mp hfold) fid hfid
  · intro oid hoid
    rw [hoid] at hother
    rw [Bool.and_eq_true] at hother
    refine ⟨hother.1, fun hm => ?_⟩
    have := hother.2
    rw [Bool.not_eq_true'] at this
    rw [← containsTrueIff h.folderMatchIds oid] at hm
    rw [this] at hm
    exact absurd hm (by decide)
  · intro e he
    have := (List.all_eq_true.mp hstore) e he
    exact of_decide_eq_true this

/-- Resolving a URI through `getFolderMatch` in a well-formed heading always
lands on a live heap object: either a workspace-root folder match (which has
a resource) or the "other files" bucket (which has none). -/
theorem wf_resolve (h : HeadingState) (hwf : headingWF h = true)
    (res : String) (fid : Nat) (hg : getFolderMatchId h res = some fid) :
    ∃ fm, storeGet h.store fid = some fm ∧
      ((fid ∈ h.folderMatchIds ∧ fm.resource.isSome = true) ∨
        (h.otherFilesMatchId = some fid ∧ fm.resource = none)) := by
  obtain ⟨_, hfold, hother, htrie, _⟩ := headingWF_parts h hwf
  rw [getFolderMatchId] at hg
  cases hm : mapFindSubstr h.folderMap res with
  | some fid' =>
      rw [hm] at hg
      simp only [Option.some.injEq] at hg
      subst hg
      have hmem : fid' ∈ findSubstrSeg (toSegments res) h.folderMap :=
        mapFindSubstr_mem _ _ _ hm
      have hcont : h.folderMatchIds.contains fid' = true :=
        trieAll_findSubstr _ _ _ htrie fid' hmem
      have hmem2 : fid' ∈ h.folderMatchIds :=
        (containsTrueIff _ _).mp hcont
      obtain ⟨fm, hfm, hp⟩ := optTest_some _ _ (hfold fid' hmem2)
      exact ⟨fm, hfm, Or.inl ⟨hmem2, hp⟩⟩
  | none =>
      rw [hm] at hg
      cases hallow : h.allowOtherResults with
      | false => rw [hallow] at hg; simp at hg
      | true =>
          rw [hallow] at hg
          simp only [if_true] at hg
          obtain ⟨hopt, _⟩ := hother fid hg
          obtain ⟨fm, hfm, hp⟩ := optTest_some _ _ hopt
          rw [Option.isNone_iff_eq_none] at hp
          exact ⟨fm, hfm, Or.inr ⟨hg, hp⟩⟩

/-! ### Characterisation of groupFilesByFolder -/

theorem groupGo_spec (h : HeadingState) :
    ∀ (raws : List FileMatchRaw) (buckets : Buckets) (other : List FileMatchRaw),
      (∀ raw ∈ raws, ∀ fid, getFolderMatchId h raw.resource = some fid →
        ∃ fm, storeGet h.store fid = some fm ∧
          ∀ r, fm.resource = some r → bucketsHasKey r buckets = true) →
      ∃ b', groupGo h raws buckets other =
          .ok (b', other ++ raws.filter (fun q => classifyRaw h q == some none)) ∧
        bucketsKeys b' = bucketsKeys buckets ∧
        (∀ r, bucketsGet r b' = (bucketsGet r buckets).map
          (· ++ raws.filter (fun q => classifyRaw h q == some (some r)))) := by
  intro raws
  induction raws with
  | nil =>
      intro buckets other _
      refine ⟨buckets, ?_, rfl, ?_⟩
      · simp [groupGo]
      · intro r
        cases bucketsGet r buckets <;> simp
  | cons raw rest ih =>
      intro buckets other hyp
      have hyprest : ∀ raw' ∈ rest, ∀ fid, getFolderMatchId h raw'.resource = some fid →
          ∃ fm, storeGet h.store fid = some fm ∧
            ∀ r, fm.resource = some r → bucketsHasKey r buckets = true :=
        fun raw' hm => hyp raw' (List.mem_cons_of_mem raw hm)
      cases hg : getFolderMatchId h raw.resource with
      | none =>
          have hclass : classifyRaw h raw = none := by simp [classifyRaw, hg]
          obtain ⟨b', hok, hkeys, hget⟩ := ih buckets other hyprest
          refine ⟨b', ?_, hkeys, ?_⟩
          · simp only [groupGo, hg]
            rw [hok]
            simp [hclass]
          · intro r
            rw [hget r]
            simp [hclass]
      | some fid =>
          obtain ⟨fm, hsg, hkey⟩ := hyp raw (List.mem_cons_self raw rest) fid hg
          have hclass : classifyRaw h raw = some fm.resource := by
            simp [classifyRaw, hg, hsg]
          cases hres : fm.resource with
          | none =>
              obtain ⟨b', hok, hkeys, hget⟩ := ih buckets (other ++ [raw]) hyprest
              refine ⟨b', ?_, hkeys, ?_⟩
              · simp only [groupGo, hg, hsg, hres]
                rw [hok]
                rw [hres] at hclass
                simp [hclass]
              · intro r
                rw [hget r]
                rw [hres] at hclass
                simp [hclass]
          | some r0 =>
              have hkk : bucketsHasKey r0 buckets = true := hkey r0 hres
              obtain ⟨b2, hb2⟩ := bucketsPush_of_hasKey r0 raw buckets hkk
              have hkeys2 : bucketsKeys b2 = bucketsKeys buckets :=
                bucketsKeys_push r0 raw buckets b2 hb2
              have hyprest2 : ∀ raw' ∈ rest, ∀ fid', getFolderMatchId h raw'.resource = some fid' →
                  ∃ fm', storeGet h.store fid' = some fm' ∧
                    ∀ r, fm'.resource = some r → bucketsHasKey r b2 = true := by
                intro raw' hm fid' hg'
                obtain ⟨fm', hsg', hkey'⟩ := hyprest raw' hm fid' hg'
                refine ⟨fm', hsg', fun r hr => ?_⟩
                rw [bucketsHasKey_eq_keys, hkeys2, ← bucketsHasKey_eq_keys]
                exact hkey' r hr
              obtain ⟨b', hok, hkeys, hget⟩ := ih b2 other hyprest2
              rw [hres] at hclass
              refine ⟨b', ?_, by rw [hkeys, hkeys2], ?_⟩
              · simp only [groupGo, hg, hsg, hres, hb2]
                rw [hok]
                simp [hclass]
              · intro r
                rw [hget r]
                by_cases hr : r = r0
                · subst hr
                  rw [bucketsGet_push_self _ raw buckets b2 hb2]
                  cases bucketsGet r buckets with
                  | none => simp
                  | some l => simp [hclass]
                · rw [bucketsGet_push_ne r0 r raw hr buckets b2 hb2]
                  cases bucketsGet r buckets with
                  | none => simp
                  | some l =>
                      have hne : ¬ (some (some r0) == some (some r)) = true := by
                        simp
                        exact fun he => hr he.symm
                      simp [hclass, hne]

theorem groupFilesByFolder_char (h : HeadingState) (raws : List FileMatchRaw)
    (hwf : headingWF h = true) :
    ∃ b, groupFilesByFolder h raws =
        .ok (b, raws.filter (fun q => classifyRaw h q == some none)) ∧
      bucketsKeys b = bucketsKeys (seedBuckets h) ∧
      (∀ r, bucketsGet r b = (bucketsGet r (seedBuckets h)).map
        (· ++ raws.filter (fun q => classifyRaw h q == some (some r)))) := by
  have hyp : ∀ raw ∈ raws, ∀ fid, getFolderMatchId h raw.resource = some fid →
      ∃ fm, storeGet h.store fid = some fm ∧
        ∀ r, fm.resource = some r → bucketsHasKey r (seedBuckets h) = true := by
    intro raw _ fid hg
    obtain ⟨fm, hsg, hca⟩ := wf_resolve h hwf raw.resource fid hg
    refine ⟨fm, hsg, fun r hr => ?_⟩
    rcases hca with ⟨hmem, _⟩ | ⟨_, hnone⟩
    · exact seedBuckets_hasKey h fid fm r hmem hsg hr
    · rw [hnone] at hr
      exact absurd hr (by simp)
  obtain ⟨b, hok, hkeys, hget⟩ := groupGo_spec h raws (seedBuckets h) [] hyp
  refine ⟨b, ?_, hkeys, hget⟩
  rw [groupFilesByFolder, hok]
  simp

/-- C5.  In a well-formed heading, `groupFilesByFolder` never raises: it
returns the buckets and the `other` list, where each raw match that resolves
to a FolderMatch with a resource lands in exactly that folder's bucket, each
raw match that resolves to the resourceless "other files" bucket lands in the
`other` list, and each raw match that resolves to no FolderMatch at all is
silently dropped (it appears in no bucket and not in `other`). -/
theorem groupFilesByFolder_spec (h : HeadingState) (raws : List FileMatchRaw)
    (hwf : headingWF h = true) :
    ∃ b o, groupFilesByFolder h raws = .ok (b, o) ∧
      o = raws.filter (fun q => classifyRaw h q == some none) ∧
      (∀ r l, bucketsGet r b = some l →
        l = raws.filter (fun q => classifyRaw h q == some (some r))) ∧
      (∀ raw ∈ raws, ∀ r, classifyRaw h raw = some (some r) →
        ∃ l, bucketsGet r b = some l ∧ raw ∈ l) ∧
      (∀ raw ∈ raws, (classifyRaw h raw = none ↔
        getFolderMatchId h raw.resource = none)) := by
  obtain ⟨b, hok, hkeys, hget⟩ := groupFilesByFolder_char h raws hwf
  have hfilter : ∀ r l, bucketsGet r b = some l →
      l = raws.filter (fun q => classifyRaw h q == some (some r)) := by
    intro r l hl
    have hgr := hget r
    rw [hl] at hgr
    cases hgb : bucketsGet r (seedBuckets h) with
    | none => rw [hgb] at hgr; simp at hgr
    | some l0 =>
        rw [hgb] at hgr
        have h0 : l0 = [] := seedBuckets_get_nil h r l0 hgb
        subst h0
        simp only [Option.map_some', List.nil_append, Option.some.injEq] at hgr
        exact hgr
  refine ⟨b, _, hok, rfl, hfilter, ?_, ?_⟩
  · intro raw hmem r hcl
    have hex : ∃ fid fm, getFolderMatchId h raw.resource = some fid ∧
        storeGet h.store fid = some fm ∧ fm.resource = some r := by
      rw [classifyRaw] at hcl
      cases hg : getFolderMatchId h raw.resource with
      | none => rw [hg] at hcl; simp at hcl
      | some fid =>
          rw [hg] at hcl
          simp only [Option.some_bind] at hcl
          cases hsg : storeGet h.store fid with
          | none => rw [hsg] at hcl; simp at hcl
          | some fm =>
              rw [hsg] at hcl
              simp only [Option.map_some', Option.some.injEq] at hcl
              exact ⟨fid, fm, rfl, hsg, hcl⟩
    obtain ⟨fid, fm, hg, hsg, hres⟩ := hex
    obtain ⟨fm', hsg', hca⟩ := wf_resolve h hwf raw.resource fid hg
    have hfm : fm' = fm := by
      rw [hsg] at hsg'
      exact (Option.some.injEq _ _ ▸ hsg').symm
    subst hfm
    rcases hca with ⟨hmemf, _⟩ | ⟨_, hnone⟩
    · have hkk : bucketsHasKey r (seedBuckets h) = true :=
        seedBuckets_hasKey h fid fm' r hmemf hsg hres
      have hkk' : bucketsHasKey r b = true := by
        rw [bucketsHasKey_eq_keys, hkeys, ← bucketsHasKey_eq_keys]
        exact hkk
      obtain ⟨l, hl⟩ := (bucketsHasKey_iff_isSome r b).mp hkk'
      refine ⟨l, hl, ?_⟩
      rw [hfilter r l hl]
      refine List.mem_filter.mpr ⟨hmem, ?_⟩
      simp [hcl]
    · rw [hnone] at hres
      exact absurd hres (by simp)
  · intro raw _
    constructor
    · intro hnone
      cases hg : getFolderMatchId h raw.resource with
      | none => rfl
      | some fid =>
          obtain ⟨fm, hsg, _⟩ := wf_resolve h hwf raw.resource fid hg
          rw [classifyRaw, hg] at hnone
          simp only [Option.some_bind, hsg, Option.map_some'] at hnone
          exact absurd hnone (by simp)
    · intro hg
      simp [classifyRaw, hg]

theorem groupFilesByFolder_spec_witness :
    ∃ b o, groupFilesByFolder exHeadingPlain [FileMatchRaw.mk "root/a.ts"] = .ok (b, o) ∧
      o = [FileMatchRaw.mk "root/a.ts"].filter
        (fun q => classifyRaw exHeadingPlain q == some none) ∧
      (∀ r l, bucketsGet r b = some l →
        l = [FileMatchRaw.mk "root/a.ts"].filter
          (fun q => classifyRaw exHeadingPlain q == some (some r))) ∧
      (∀ raw ∈ [FileMatchRaw.mk "root/a.ts"], ∀ r,
        classifyRaw exHeadingPlain raw = some (some r) →
        ∃ l, bucketsGet r b = some l ∧ raw ∈ l) ∧
      (∀ raw ∈ [FileMatchRaw.mk "root/a.ts"],
        (classifyRaw exHeadingPlain raw = none ↔
          getFolderMatchId exHeadingPlain raw.resource = none)) :=
  groupFilesByFolder_spec exHeadingPlain [FileMatchRaw.mk "root/a.ts"] (by decide)

/-! ### Distinct bucket keys and entry lookup -/

theorem contains_keys_bucketsSet (x r : String) (l : List FileMatchRaw) :
    ∀ (b : Buckets), (bucketsKeys (bucketsSet r l b)).contains x =
      ((bucketsKeys b).contains x || (x == r)) := by
  intro b
  induction b with
  | nil =>
      simp [bucketsSet, bucketsKeys]
      by_cases hxr : x = r <;> simp [hxr]
  | cons p rest ih =>
      obtain ⟨k, l'⟩ := p
      by_cases hk : k = r
      · subst hk
        simp only [bucketsSet, if_pos rfl, bucketsKeys, List.map_cons,
          List.contains_cons]
        cases hxk : (x == k) with
        | true =>
            have : x = k := by simpa using hxk
            subst this
            simp
        | false => simp [hxk]
      · simp only [bucketsSet, if_neg hk, bucketsKeys, List.map_cons,
          List.contains_cons]
        rw [show (bucketsSet r l rest).map Prod.fst = bucketsKeys (bucketsSet r l rest) from rfl,
          ih]
        rw [show rest.map Prod.fst = bucketsKeys rest from rfl]
        cases (x == k) <;> simp

theorem nodupKeys_bucketsSet (r : String) (l : List FileMatchRaw) :
    ∀ (b : Buckets), nodupKeys (bucketsKeys b) = true →
      nodupKeys (bucketsKeys (bucketsSet r l b)) = true := by
  intro b
  induction b with
  | nil => intro _; simp [bucketsSet, bucketsKeys, nodupKeys]
  | cons p rest ih =>
      intro hnd
      obtain ⟨k, l'⟩ := p
      simp only [bucketsKeys, List.map_cons, nodupKeys, Bool.and_eq_true,
        Bool.not_eq_true'] at hnd
      by_cases hk : k = r
      · subst hk
        simp only [bucketsSet, if_pos rfl, bucketsKeys, List.map_cons, nodupKeys,
          Bool.and_eq_true, Bool.not_eq_true']
        exact hnd
      · simp only [bucketsSet, if_neg hk, bucketsKeys, List.map_cons, nodupKeys,
          Bool.and_eq_true, Bool.not_eq_true']
        constructor
        · rw [show (bucketsSet r l rest).map Prod.fst = bucketsKeys (bucketsSet r l rest) from rfl,
            contains_keys_bucketsSet k r l rest]
          rw [show rest.map Prod.fst = bucketsKeys rest from rfl] at hnd
          rw [hnd.1]
          simp
          exact hk
        · exact ih hnd.2

theorem seedBuckets_aux_nodup (st : Store) :
    ∀ (ids : List Nat) (b0 : Buckets), nodupKeys (bucketsKeys b0) = true →
      nodupKeys (bucketsKeys
        (ids.foldl (fun b fid =>
          match storeGet st fid with
          | some fm => match fm.resource with
              | some r' => bucketsSet r' [] b
              | none => b
          | none => b) b0)) = true := by
  intro ids
  induction ids with
  | nil => intro b0 h; exact h
  | cons i rest ih =>
      intro b0 h
      simp only [List.foldl_cons]
      cases hsg : storeGet st i with
      | none =>
          simp only [hsg]
          exact ih b0 h
      | some fm =>
          simp only [hsg]
          cases hres : fm.resource with
          | none =>
              simp only [hres]
              exact ih b0 h
          | some r' =>
              simp only [hres]
              exact ih _ (nodupKeys_bucketsSet r' [] b0 h)

theorem seedBuckets_keys_nodup (h : HeadingState) :
    nodupKeys (bucketsKeys (seedBuckets h)) = true :=
  seedBuckets_aux_nodup h.store h.folderMatchIds [] (by simp [bucketsKeys, nodupKeys])

theorem bucketsGet_of_mem_nodup (r : String) (l : List FileMatchRaw) :
    ∀ (b : Buckets), nodupKeys (bucketsKeys b) = true → (r, l) ∈ b →
      bucketsGet r b = some l := by
  intro b
  induction b with
  | nil => intro _ hm; simp at hm
  | cons p rest ih =>
      intro hnd hm
      obtain ⟨k, l'⟩ := p
      simp only [bucketsKeys, List.map_cons, nodupKeys, Bool.and_eq_true,
        Bool.not_eq_true'] at hnd
      rcases List.mem_cons.mp hm with he | hm'
      · obtain ⟨hk, hl⟩ := Prod.mk.injEq .. ▸ he
        simp [bucketsGet, hk.symm, hl]
      · have hkr : k ≠ r := by
          intro hkr
          subst hkr
          have : k ∈ rest.map Prod.fst :=
            List.mem_map_of_mem Prod.fst hm'
          rw [← containsTrueIff (rest.map Prod.fst) k] at this
          rw [hnd.1] at this
          exact absurd this (by decide)
        simp only [bucketsGet, if_neg hkr]
        exact ih hnd.2 hm'

/-! ### The dispatch loop -/

theorem sameShape_refl (h : HeadingState) : sameShape h h :=
  ⟨rfl, rfl, rfl, rfl, rfl, rfl, rfl, rfl, rfl⟩

theorem sameShape_store (h st : HeadingState) (X : Store) (hs : sameShape h st) :
    sameShape h { st with store := X } := hs

theorem getFolderMatchId_sameShape (h st : HeadingState) (hs : sameShape h st)
    (res : String) : getFolderMatchId st res = getFolderMatchId h res := by
  obtain ⟨_, h3, h4, _, _, _, _, _, h10⟩ := hs
  rw [getFolderMatchId, getFolderMatchId, h3, h4, h10]

theorem dispatchFold_spec (h : HeadingState) :
    ∀ (buckets : Buckets) (st : HeadingState) (log0 : List (Nat × List FileMatchRaw)),
      sameShape h st →
      ∃ newlog,
        (buckets.foldl dispatchStep (st, log0)).2 = log0 ++ newlog ∧
        sameShape h (buckets.foldl dispatchStep (st, log0)).1 ∧
        (∀ fid batch, (fid, batch) ∈ newlog →
          ∃ r raw0 rest2, (r, raw0 :: rest2) ∈ buckets ∧ batch = raw0 :: rest2 ∧
            getFolderMatchId h raw0.resource = some fid) ∧
        (∀ sid, sid ∉ newlog.map Prod.fst →
          storeGet (buckets.foldl dispatchStep (st, log0)).1.store sid =
            storeGet st.store sid) := by
  intro buckets
  induction buckets with
  | nil =>
      intro st log0 hst
      exact ⟨[], by simp, hst, by simp, fun sid _ => rfl⟩
  | cons entry rest ih =>
      intro st log0 hst
      obtain ⟨r, batch⟩ := entry
      rw [List.foldl_cons]
      cases batch with
      | nil =>
          have hstep : dispatchStep (st, log0) (r, []) = (st, log0) := rfl
          rw [hstep]
          obtain ⟨newlog, h1, h2, h3, h4⟩ := ih st log0 hst
          refine ⟨newlog, h1, h2, ?_, h4⟩
          intro fid b hm
          obtain ⟨rr, raw0, rest2, hmem, hb, hgid⟩ := h3 fid b hm
          exact ⟨rr, raw0, rest2, List.mem_cons_of_mem _ hmem, hb, hgid⟩
      | cons raw0 brest =>
          have hgid_eq : getFolderMatchId st raw0.resource =
              getFolderMatchId h raw0.resource :=
            getFolderMatchId_sameShape h st hst raw0.resource
          cases hgid : getFolderMatchId h raw0.resource with
          | none =>
              have hstep : dispatchStep (st, log0) (r, raw0 :: brest) = (st, log0) := by
                simp only [dispatchStep]
                rw [hgid_eq, hgid]
              rw [hstep]
              obtain ⟨newlog, h1, h2, h3, h4⟩ := ih st log0 hst
              refine ⟨newlog, h1, h2, ?_, h4⟩
              intro fid b hm
              obtain ⟨rr, raw1, rest2, hmem, hb, hgid'⟩ := h3 fid b hm
              exact ⟨rr, raw1, rest2, List.mem_cons_of_mem _ hmem, hb, hgid'⟩
          | some fid0 =>
              have hstep : dispatchStep (st, log0) (r, raw0 :: brest) =
                  ({ st with store := storeUpdate fid0 (addFilesFM (raw0 :: brest)) st.store },
                    log0 ++ [(fid0, raw0 :: brest)]) := by
                simp only [dispatchStep]
                rw [hgid_eq, hgid]
              rw [hstep]
              obtain ⟨newlog, h1, h2, h3, h4⟩ :=
                ih { st with store := storeUpdate fid0 (addFilesFM (raw0 :: brest)) st.store }
                  (log0 ++ [(fid0, raw0 :: brest)]) (sameShape_store h st _ hst)
              refine ⟨(fid0, raw0 :: brest) :: newlog, ?_, h2, ?_, ?_⟩
              · rw [h1]
                simp
              · intro fid b hm
                rcases List.mem_cons.mp hm with he | hm'
                · obtain ⟨he1, he2⟩ := Prod.mk.injEq .. ▸ he
                  subst he1
                  subst he2
                  exact ⟨r, raw0, brest, List.mem_cons_self _ _, rfl, hgid⟩
                · obtain ⟨rr, raw1, rest2, hmem, hb, hgid'⟩ := h3 fid b hm'
                  exact ⟨rr, raw1, rest2, List.mem_cons_of_mem _ hmem, hb, hgid'⟩
              · intro sid hsid
                simp only [List.map_cons, List.mem_cons, not_or] at hsid
                rw [h4 sid (by simpa using hsid.2)]
                exact storeGet_storeUpdate_ne hsid.1 _ st.store

/-- Extracting the folder resolution behind a bucket classification. -/
theorem classify_some_some (h : HeadingState) (raw : FileMatchRaw) (r : String)
    (hcl : classifyRaw h raw = some (some r)) :
    ∃ fid fm, getFolderMatchId h raw.resource = some fid ∧
      storeGet h.store fid = some fm ∧ fm.resource = some r := by
  rw [classifyRaw] at hcl
  cases hg : getFolderMatchId h raw.resource with
  | none => rw [hg] at hcl; simp at hcl
  | some fid =>
      rw [hg] at hcl
      simp only [Option.some_bind] at hcl
      cases hsg : storeGet h.store fid with
      | none => rw [hsg] at hcl; simp at hcl
      | some fm =>
          rw [hsg] at hcl
          simp only [Option.map_some', Option.some.injEq] at hcl
          exact ⟨fid, fm, rfl, hsg, hcl⟩

/-- C10.  With `ai = true`, `add` dispatches only the per-folder buckets:
every logged `addFileMatch` call targets a folder match other than the
"other files" bucket, and a raw match classified into the `other` partition
(its URI is under no configured folder root) appears in no dispatched batch —
it is discarded, even though the heading was constructed with other results
allowed. -/
theorem add_ai_never_adds_to_other (h : HeadingState) (raws : List FileMatchRaw)
    (sid : String) (silent : Bool) (h' : HeadingState)
    (log : List (Nat × List FileMatchRaw))
    (hwf : headingWF h = true)
    (hadd : headingAddE h raws sid true silent = .ok (h', log)) :
    (∀ fid batch, (fid, batch) ∈ log → h.otherFilesMatchId ≠ some fid) ∧
    (∀ raw ∈ raws, classifyRaw h raw = some none →
      ∀ fid batch, (fid, batch) ∈ log → raw ∉ batch) := by
  obtain ⟨b, hok, hkeys, hget⟩ := groupFilesByFolder_char h raws hwf
  have hcomp : headingAddE h raws sid true silent =
      .ok (runDisposePastResults (dispatchByFolder b h).1, (dispatchByFolder b h).2) := by
    rw [headingAddE, hok]
    rfl
  rw [hcomp] at hadd
  simp only [Except.ok.injEq, Prod.mk.injEq] at hadd
  obtain ⟨newlog, hl1, _, h3, _⟩ :=
    dispatchFold_spec h b h [] (sameShape_refl h)
  have hlog : log = newlog := by
    rw [← hadd.2]
    rw [show (dispatchByFolder b h).2 = (b.foldl dispatchStep (h, [])).2 from rfl, hl1]
    simp
  have hndb : nodupKeys (bucketsKeys b) = true := by
    rw [hkeys]
    exact seedBuckets_keys_nodup h
  have hchar : ∀ fid batch, (fid, batch) ∈ log →
      ∃ r raw0 rest2, batch = raw0 :: rest2 ∧
        batch = raws.filter (fun q => classifyRaw h q == some (some r)) ∧
        getFolderMatchId h raw0.resource = some fid := by
    intro fid batch hm
    rw [hlog] at hm
    obtain ⟨r, raw0, rest2, hmem, hb, hgid⟩ := h3 fid batch hm
    refine ⟨r, raw0, rest2, hb, ?_, hgid⟩
    have hgetb : bucketsGet r b = some (raw0 :: rest2) :=
      bucketsGet_of_mem_nodup r (raw0 :: rest2) b hndb hmem
    have hgr := hget r
    rw [hgetb] at hgr
    cases hgb : bucketsGet r (seedBuckets h) with
    | none => rw [hgb] at hgr; simp at hgr
    | some l0 =>
        rw [hgb] at hgr
        have h0 : l0 = [] := seedBuckets_get_nil h r l0 hgb
        subst h0
        simp only [Option.map_some', List.nil_append, Option.some.injEq] at hgr
        rw [hb, hgr]
  constructor
  · intro fid batch hm hother
    obtain ⟨r, raw0, rest2, hb, hfil, hgid⟩ := hchar fid batch hm
    have hraw0 : raw0 ∈ raws.filter (fun q => classifyRaw h q == some (some r)) := by
      rw [← hfil, hb]
      exact List.mem_cons_self _ _
    have hcl : classifyRaw h raw0 = some (some r) := by
      have := (List.mem_filter.mp hraw0).2
      simpa using this
    obtain ⟨fid2, fm, hg2, hsg2, hres2⟩ := classify_some_some h raw0 r hcl
    have hfid : fid = fid2 := by
      rw [hgid] at hg2
      exact Option.some.injEq _ _ ▸ hg2
    subst hfid
    obtain ⟨_, _, hotherwf, _, _⟩ := headingWF_parts h hwf
    obtain ⟨hopt, _⟩ := hotherwf fid hother
    obtain ⟨fmo, hsgo, hpo⟩ := optTest_some _ _ hopt
    rw [hsg2] at hsgo
    have hfm : fm = fmo := Option.some.injEq .. ▸ hsgo
    rw [← hfm] at hpo
    rw [hres2] at hpo
    exact absurd hpo (by simp)
  · intro raw _ hclnone fid batch hm hrawb
    obtain ⟨r, raw0, rest2, hb, hfil, _⟩ := hchar fid batch hm
    rw [hfil] at hrawb
    have hcl : classifyRaw h raw = some (some r) := by
      have := (List.mem_filter.mp hrawb).2
      simpa using this
    rw [hclnone] at hcl
    simp at hcl

/-! ### Query-setter teardown (claim C4): frame lemmas -/

theorem sameShape_trans (a b c : HeadingState) (h1 : sameShape a b)
    (h2 : sameShape b c) : sameShape a c := by
  obtain ⟨x1, x2, x3, x4, x5, x6, x7, x8, x9⟩ := h1
  obtain ⟨y1, y2, y3, y4, y5, y6, y7, y8, y9⟩ := h2
  exact ⟨y1.trans x1, y2.trans x2, y3.trans x3, y4.trans x4, y5.trans x5,
    y6.trans x6, y7.trans x7, y8.trans x8, y9.trans x9⟩

theorem sameShape_runDispose (h st : HeadingState) (hs : sameShape h st) :
    sameShape h (runDisposePastResults st) := by
  cases hps : st.pastResults with
  | none =>
      simp only [runDisposePastResults, hps]
      exact hs
  | some ids =>
      simp only [runDisposePastResults, hps]
      exact hs

theorem nodupNat_append_single (l : List Nat) (k : Nat)
    (hnd : nodupNat l = true) (hk : k ∉ l) : nodupNat (l ++ [k]) = true := by
  induction l with
  | nil => simp [nodupNat]
  | cons a rest ih =>
      obtain ⟨ha, hrest⟩ := nodupNat_cons a rest hnd
      have hk' : k ∉ rest := fun hm => hk (List.mem_cons_of_mem a hm)
      have hka : k ≠ a := fun he => hk (he ▸ List.mem_cons_self a rest)
      rw [List.cons_append, nodupNat, Bool.and_eq_true, Bool.not_eq_true']
      refine ⟨?_, ih hrest hk'⟩
      have hnm : a ∉ rest ++ [k] := by
        intro hm
        rcases List.mem_append.mp hm with hm | hm
        · exact ha hm
        · simp at hm
          exact hka hm.symm
      cases hc : (rest ++ [k]).contains a with
      | false => rfl
      | true => exact absurd ((containsTrueIff _ _).mp hc) hnm

theorem headingFolderIds_mem (h : HeadingState) (fid : Nat)
    (hm : fid ∈ headingFolderIds h) :
    fid ∈ h.folderMatchIds ∨
      (h.otherFilesMatchId = some fid ∧ h.allowOtherResults = true) := by
  rw [headingFolderIds] at hm
  cases hoth : h.otherFilesMatchId with
  | none =>
      simp only [hoth] at hm
      exact Or.inl hm
  | some oid =>
      cases hallow : h.allowOtherResults with
      | false =>
          simp only [hoth, hallow] at hm
          exact Or.inl hm
      | true =>
          simp only [hoth, hallow] at hm
          rcases List.mem_append.mp hm with hm' | hm'
          · exact Or.inl hm'
          · simp at hm'
            subst hm'
            exact Or.inr ⟨rfl, rfl⟩

theorem headingFolderIds_store_some (h : HeadingState) (hwf : headingWF h = true) :
    ∀ fid ∈ headingFolderIds h, ∃ fm, storeGet h.store fid = some fm := by
  intro fid hm
  obtain ⟨_, hfold, hother, _, _⟩ := headingWF_parts h hwf
  rcases headingFolderIds_mem h fid hm with hm' | ⟨hoth, _⟩
  · obtain ⟨fm, hfm, _⟩ := optTest_some _ _ (hfold fid hm')
    exact ⟨fm, hfm⟩
  · obtain ⟨hopt, _⟩ := hother fid hoth
    obtain ⟨fm, hfm, _⟩ := optTest_some _ _ hopt
    exact ⟨fm, hfm⟩

theorem headingFolderIds_lt_nextId (h : HeadingState) (hwf : headingWF h = true) :
    ∀ fid ∈ headingFolderIds h, fid < h.nextId := by
  intro fid hm
  obtain ⟨fm, hfm⟩ := headingFolderIds_store_some h hwf fid hm
  obtain ⟨_, _, _, _, hstore⟩ := headingWF_parts h hwf
  exact hstore (fid, fm) (storeGet_some_mem h.store fid fm hfm)

theorem headingFolderIds_nodup (h : HeadingState) (hwf : headingWF h = true) :
    nodupNat (headingFolderIds h) = true := by
  obtain ⟨hnd, _, hother, _, _⟩ := headingWF_parts h hwf
  rw [headingFolderIds]
  cases hoth : h.otherFilesMatchId with
  | none => exact hnd
  | some oid =>
      cases hallow : h.allowOtherResults with
      | false => exact hnd
      | true =>
          obtain ⟨_, hnm⟩ := hother oid hoth
          exact nodupNat_append_single h.folderMatchIds oid hnd hnm

/-! ### Trie payloads created by the query setter -/

theorem trieAll_empty (p : T → Bool) :
    trieAll p (PathTrieNode.node none []) = true := by
  simp [trieAll, trieAllChildren]

theorem trieAllChildren_childSet (p : T → Bool) (s : String) (n : PathTrieNode T)
    (hn : trieAll p n = true) :
    ∀ ch, trieAllChildren p ch = true →
      trieAllChildren p (childSet s n ch) = true := by
  intro ch
  induction ch with
  | nil =>
      intro _
      simp only [childSet, trieAllChildren, Bool.and_eq_true]
      exact ⟨hn, trivial⟩
  | cons q rest ih =>
      intro hall
      obtain ⟨k, m⟩ := q
      simp only [trieAllChildren, Bool.and_eq_true] at hall
      by_cases hk : k = s
      · simp only [childSet, if_pos hk, trieAllChildren, Bool.and_eq_true]
        exact ⟨hn, hall.2⟩
      · simp only [childSet, if_neg hk, trieAllChildren, Bool.and_eq_true]
        exact ⟨hall.1, ih hall.2⟩

theorem trieAll_setSeg (p : T → Bool) (v : T) (hv : p v = true) :
    ∀ (segs : List String) (t : PathTrieNode T), trieAll p t = true →
      trieAll p (setSeg v segs t) = true := by
  intro segs
  induction segs with
  | nil =>
      intro t hall
      obtain ⟨d, ch⟩ := t
      simp only [trieAll, Bool.and_eq_true] at hall
      simp only [setSeg, trieAll, Bool.and_eq_true]
      exact ⟨hv, hall.2⟩
  | cons s rest ih =>
      intro t hall
      obtain ⟨d, ch⟩ := t
      simp only [trieAll, Bool.and_eq_true] at hall
      simp only [setSeg, trieAll, Bool.and_eq_true]
      refine ⟨hall.1, ?_⟩
      cases hcg : childGet s ch with
      | some c =>
          simp only [hcg]
          exact trieAllChildren_childSet p s _
            (ih c (trieAllChildren_childGet p s c ch hall.2 hcg)) ch hall.2
      | none =>
          simp only [hcg]
          exact trieAllChildren_childSet p s _
            (ih _ (trieAll_empty p)) ch hall.2

theorem buildFolderMap_trieAll (p : Nat → Bool) (st : Store) :
    ∀ (ids : List Nat) (t0 : PathTrieNode Nat),
      (∀ id ∈ ids, p id = true) → trieAll p t0 = true →
      trieAll p (buildFolderMap st ids t0) = true := by
  intro ids
  induction ids with
  | nil => intro t0 _ h0; exact h0
  | cons i rest ih =>
      intro t0 hids h0
      rw [buildFolderMap]
      refine ih _ (fun id hm => hids id (List.mem_cons_of_mem i hm)) ?_
      cases hsg : storeGet st i with
      | none =>
          simp only [hsg]
          exact h0
      | some fm =>
          simp only [hsg]
          cases hres : fm.resource with
          | none =>
              simp only [hres]
              exact h0
          | some r =>
              simp only [hres]
              exact trieAll_setSeg p i (hids i (List.mem_cons_self i rest)) _ t0 h0

/-! ### createFoldersGo -/

theorem createFoldersGo_spec :
    ∀ (rs : List String) (idx : Nat) (h : HeadingState),
      sameShape h (createFoldersGo rs idx h).1 ∧
      h.nextId ≤ (createFoldersGo rs idx h).1.nextId ∧
      (∀ id ∈ (createFoldersGo rs idx h).2, h.nextId ≤ id) ∧
      (∀ k, k < h.nextId →
        storeGet (createFoldersGo rs idx h).1.store k = storeGet h.store k) := by
  intro rs
  induction rs with
  | nil =>
      intro idx h
      exact ⟨sameShape_refl h, Nat.le_refl _, by simp [createFoldersGo],
        fun k _ => rfl⟩
  | cons r rest ih =>
      intro idx h
      simp only [createFoldersGo]
      obtain ⟨is1, is2, is3, is4⟩ := ih (idx + 1)
        ({ h with store := storeInsert h.nextId (workspaceFolderObj r idx) h.store,
                  nextId := h.nextId + 1 })
      refine ⟨sameShape_trans h _ _ ⟨rfl, rfl, rfl, rfl, rfl, rfl, rfl, rfl, rfl⟩ is1,
        Nat.le_trans (Nat.le_succ _) is2, ?_, ?_⟩
      · intro id hm
        rcases List.mem_cons.mp hm with he | hm'
        · exact he ▸ Nat.le_refl _
        · exact Nat.le_trans (Nat.le_succ _) (is3 id hm')
      · intro k hk
        rw [is4 k (Nat.lt_succ_of_lt hk)]
        exact storeGet_storeInsert_ne (Nat.ne_of_lt hk) _ h.store

/-! ### setQueryOther and setQuerySome -/

theorem setQueryOther_frame (h3 : HeadingState) (idx : Nat) :
    (setQueryOther h3 idx).pastResults = h3.pastResults ∧
    (setQueryOther h3 idx).folderMatchIds = h3.folderMatchIds ∧
    (setQueryOther h3 idx).folderMap = h3.folderMap ∧
    (setQueryOther h3 idx).allowOtherResults = h3.allowOtherResults := by
  rw [setQueryOther]
  split <;> exact ⟨rfl, rfl, rfl, rfl⟩

theorem setQueryOther_store_lt (h3 : HeadingState) (idx : Nat) (k : Nat)
    (hk : k < h3.nextId) :
    storeGet (setQueryOther h3 idx).store k = storeGet h3.store k := by
  rw [setQueryOther]
  split
  · exact storeGet_storeInsert_ne (Nat.ne_of_lt hk) _ _
  · rfl

theorem setQueryOther_nextId_le (h3 : HeadingState) (idx : Nat) :
    h3.nextId ≤ (setQueryOther h3 idx).nextId := by
  rw [setQueryOther]
  split
  · exact Nat.le_succ _
  · exact Nat.le_refl _

theorem setQueryOther_other (h3 : HeadingState) (idx : Nat) (oid : Nat)
    (hoid : (setQueryOther h3 idx).otherFilesMatchId = some oid) :
    (h3.allowOtherResults = true ∧ oid = h3.nextId) ∨
    (h3.allowOtherResults = false ∧ h3.otherFilesMatchId = some oid) := by
  cases ha : h3.allowOtherResults with
  | true =>
      rw [setQueryOther] at hoid
      simp only [ha, if_true] at hoid
      exact Or.inl ⟨rfl, by simpa using hoid.symm⟩
  | false =>
      rw [setQueryOther] at hoid
      simp only [ha, Bool.false_eq_true, if_false] at hoid
      exact Or.inr ⟨rfl, hoid⟩

theorem setQuerySome_spec (h : HeadingState) (q : TextQuery) :
    (setQuerySome h q).pastResults = some (headingFolderIds h) ∧
    (setQuerySome h q).allowOtherResults = h.allowOtherResults ∧
    (∀ k, k < h.nextId → storeGet (setQuerySome h q).store k = storeGet h.store k) ∧
    (∀ fid ∈ (setQuerySome h q).folderMatchIds, h.nextId ≤ fid) ∧
    (∀ oid, (setQuerySome h q).otherFilesMatchId = some oid →
      (h.nextId ≤ oid ∨ (h.allowOtherResults = false ∧ h.otherFilesMatchId = some oid))) ∧
    trieAll (fun fid => decide (h.nextId ≤ fid)) (setQuerySome h q).folderMap = true := by
  obtain ⟨cs1, cs2, cs3, cs4⟩ := createFoldersGo_spec q.folderQueries 0 (setQueryCore h)
  obtain ⟨p1, p2, p3, p4, p5, p6, p7, p8, p9⟩ := cs1
  obtain ⟨f1, f2, f3, f4⟩ := setQueryOther_frame (setQueryRebuilt h q)
    ((setQueryFolders h q).2.length + 1)
  refine ⟨?_, ?_, ?_, ?_, ?_, ?_⟩
  · show (setQueryOther (setQueryRebuilt h q)
      ((setQueryFolders h q).2.length + 1)).pastResults = some (headingFolderIds h)
    rw [f1]
    exact p7
  · show (setQueryOther (setQueryRebuilt h q)
      ((setQueryFolders h q).2.length + 1)).allowOtherResults = h.allowOtherResults
    rw [f4]
    exact p9
  · intro k hk
    show storeGet (setQueryOther (setQueryRebuilt h q)
      ((setQueryFolders h q).2.length + 1)).store k = storeGet h.store k
    rw [setQueryOther_store_lt (setQueryRebuilt h q)
      ((setQueryFolders h q).2.length + 1) k (Nat.lt_of_lt_of_le hk cs2)]
    exact cs4 k hk
  · intro fid hm
    have hm2 : fid ∈ (setQueryOther (setQueryRebuilt h q)
        ((setQueryFolders h q).2.length + 1)).folderMatchIds := hm
    rw [f2] at hm2
    exact cs3 fid hm2
  · intro oid hoid
    have hoid2 : (setQueryOther (setQueryRebuilt h q)
        ((setQueryFolders h q).2.length + 1)).otherFilesMatchId = some oid := hoid
    rcases setQueryOther_other _ _ oid hoid2 with ⟨_, hoide⟩ | ⟨haF, hoidF⟩
    · left
      rw [hoide]
      exact cs2
    · right
      refine ⟨?_, ?_⟩
      · have hx : (createFoldersGo q.folderQueries 0
            (setQueryCore h)).1.allowOtherResults = false := haF
        rw [p9] at hx
        exact hx
      · have hx : (createFoldersGo q.folderQueries 0
            (setQueryCore h)).1.otherFilesMatchId = some oid := hoidF
        rw [p2] at hx
        exact hx
  · show trieAll (fun fid => decide (h.nextId ≤ fid))
      (setQueryOther (setQueryRebuilt h q)
        ((setQueryFolders h q).2.length + 1)).folderMap = true
    rw [f3]
    exact buildFolderMap_trieAll _ _ _ _
      (fun id hm => decide_eq_true (cs3 id hm)) (trieAll_empty _)

/-! ### The effect of add on the captured old folder matches -/

theorem headingAddE_effect (hq : HeadingState) (raws : List FileMatchRaw)
    (sid : String) (ai silent : Bool) (h2 : HeadingState)
    (log : List (Nat × List FileMatchRaw))
    (hadd : headingAddE hq raws sid ai silent = .ok (h2, log)) :
    sameShape hq h2 ∧
    (∀ oldIds, hq.pastResults = some oldIds → nodupNat oldIds = true →
      ∀ fid ∈ oldIds,
        (∀ res fid', getFolderMatchId hq res = some fid' → fid ≠ fid') →
        (∀ oid, hq.otherFilesMatchId = some oid → fid ≠ oid) →
        storeGet h2.store fid =
          ((storeGet hq.store fid).map clearFM).map disposeFM) := by
  cases hgroup : groupFilesByFolder hq raws with
  | error e =>
      rw [headingAddE, hgroup] at hadd
      exact absurd hadd (by simp)
  | ok pr =>
      obtain ⟨byFolder, other⟩ := pr
      obtain ⟨newlog, hl1, hshape, hlogchar, hframe⟩ :=
        dispatchFold_spec hq byFolder hq [] (sameShape_refl hq)
      have hDother : (dispatchByFolder byFolder hq).1.otherFilesMatchId =
          hq.otherFilesMatchId := hshape.2.1
      have hDstore : ∀ fid,
          (∀ res fid', getFolderMatchId hq res = some fid' → fid ≠ fid') →
          storeGet (dispatchByFolder byFolder hq).1.store fid =
            storeGet hq.store fid := by
        intro fid hexcl
        refine hframe fid ?_
        intro hmem
        obtain ⟨entry, hentry, hfid⟩ := List.mem_map.mp hmem
        obtain ⟨r, raw0, rest2, _, _, hgid⟩ := hlogchar entry.1 entry.2 hentry
        exact hexcl raw0.resource entry.1 hgid hfid.symm
      have main : ∀ (X : HeadingState),
          sameShape hq X →
          (∀ fid,
            (∀ res fid', getFolderMatchId hq res = some fid' → fid ≠ fid') →
            (∀ oid, hq.otherFilesMatchId = some oid → fid ≠ oid) →
            storeGet X.store fid = storeGet hq.store fid) →
          runDisposePastResults X = h2 →
          sameShape hq h2 ∧
          (∀ oldIds, hq.pastResults = some oldIds → nodupNat oldIds = true →
            ∀ fid ∈ oldIds,
              (∀ res fid', getFolderMatchId hq res = some fid' → fid ≠ fid') →
              (∀ oid, hq.otherFilesMatchId = some oid → fid ≠ oid) →
              storeGet h2.store fid =
                ((storeGet hq.store fid).map clearFM).map disposeFM) := by
        intro X hXshape hXstore hX2
        constructor
        · rw [← hX2]
          exact sameShape_runDispose hq X hXshape
        · intro oldIds hpast hnd fid hmem hexcl hexclo
          have hXpast : X.pastResults = some oldIds := by
            rw [hXshape.2.2.2.2.2.2.1]
            exact hpast
          have hrun : runDisposePastResults X = runTeardown oldIds X := by
            rw [runDisposePastResults, hXpast]
          rw [← hX2, hrun]
          show storeGet (updateMany oldIds disposeFM
            (updateMany oldIds clearFM X.store)) fid = _
          rw [storeGet_updateMany_mem _ _ _ _ hnd hmem,
            storeGet_updateMany_mem _ _ _ _ hnd hmem,
            hXstore fid hexcl hexclo]
      cases ai with
      | true =>
          have hcomp : headingAddE hq raws sid true silent =
              .ok (runDisposePastResults (dispatchByFolder byFolder hq).1,
                (dispatchByFolder byFolder hq).2) := by
            rw [headingAddE, hgroup]
            rfl
          rw [hcomp] at hadd
          simp only [Except.ok.injEq, Prod.mk.injEq] at hadd
          exact main _ hshape (fun fid hexcl _ => hDstore fid hexcl) hadd.1
      | false =>
          have hcomp : headingAddE hq raws sid false silent =
              .ok (runDisposePastResults
                (match (dispatchByFolder byFolder hq).1.otherFilesMatchId with
                 | some oid =>
                     ({ (dispatchByFolder byFolder hq).1 with
                         store := storeUpdate oid (addFilesFM other)
                           (dispatchByFolder byFolder hq).1.store },
                       (dispatchByFolder byFolder hq).2 ++ [(oid, other)])
                 | none => dispatchByFolder byFolder hq).1,
                (match (dispatchByFolder byFolder hq).1.otherFilesMatchId with
                 | some oid =>
                     ({ (dispatchByFolder byFolder hq).1 with
                         store := storeUpdate oid (addFilesFM other)
                           (dispatchByFolder byFolder hq).1.store },
                       (dispatchByFolder byFolder hq).2 ++ [(oid, other)])
                 | none => dispatchByFolder byFolder hq).2) := by
            rw [headingAddE, hgroup]
            rfl
          rw [hcomp] at hadd
          suffices hs : ∃ X, sameShape hq X ∧
              (∀ fid,
                (∀ res fid', getFolderMatchId hq res = some fid' → fid ≠ fid') →
                (∀ oid, hq.otherFilesMatchId = some oid → fid ≠ oid) →
                storeGet X.store fid = storeGet hq.store fid) ∧
              runDisposePastResults X = h2 by
            obtain ⟨X, a, b, c⟩ := hs
            exact main X a b c
          cases hoth : hq.otherFilesMatchId with
          | none =>
              have hothD : (dispatchByFolder byFolder hq).1.otherFilesMatchId =
                  none := by rw [hDother, hoth]
              have hmatch : (match (dispatchByFolder byFolder hq).1.otherFilesMatchId with
                  | some oid =>
                      ({ (dispatchByFolder byFolder hq).1 with
                          store := storeUpdate oid (addFilesFM other)
                            (dispatchByFolder byFolder hq).1.store },
                        (dispatchByFolder byFolder hq).2 ++ [(oid, other)])
                  | none => dispatchByFolder byFolder hq) =
                  dispatchByFolder byFolder hq := by
                rw [hothD]
              rw [hmatch] at hadd
              simp only [Except.ok.injEq, Prod.mk.injEq] at hadd
              exact ⟨(dispatchByFolder byFolder hq).1, hshape,
                fun fid hexcl _ => hDstore fid hexcl, hadd.1⟩
          | some oid =>
              have hothD : (dispatchByFolder byFolder hq).1.otherFilesMatchId =
                  some oid := by rw [hDother, hoth]
              have hmatch : (match (dispatchByFolder byFolder hq).1.otherFilesMatchId with
                  | some oid =>
                      ({ (dispatchByFolder byFolder hq).1 with
                          store := storeUpdate oid (addFilesFM other)
                            (dispatchByFolder byFolder hq).1.store },
                        (dispatchByFolder byFolder hq).2 ++ [(oid, other)])
                  | none => dispatchByFolder byFolder hq) =
                  ({ (dispatchByFolder byFolder hq).1 with
                      store := storeUpdate oid (addFilesFM other)
                        (dispatchByFolder byFolder hq).1.store },
                    (dispatchByFolder byFolder hq).2 ++ [(oid, other)]) := by
                rw [hothD]
              rw [hmatch] at hadd
              simp only [Except.ok.injEq, Prod.mk.injEq] at hadd
              refine ⟨_, sameShape_store hq _ _ hshape, ?_, hadd.1⟩
              intro fid hexcl hexclo
              show storeGet (storeUpdate oid (addFilesFM other)
                (dispatchByFolder byFolder hq).1.store) fid = _
              rw [storeGet_storeUpdate_ne (hexclo oid rfl) _ _]
              exact hDstore fid hexcl

/-- C4.  After the query setter replaces a heading's query with a new
non-null query: (1) every FolderMatch of the previous query is absent from
the new `folderMatches()`; (2) the setter itself leaves the old objects
untouched — their disposal is deferred; (3) the next `add` of results runs
the deferred `disposePastResults`, which clears and then disposes each old
folder match exactly once (file matches emptied, clear and dispose counters
each incremented by one, disposed flag set); and (4) a second `add` leaves
them unchanged — the teardown never runs twice on the same objects, because
disposal is idempotent. -/
theorem query_replacement_disposes_once (h : HeadingState) (q : TextQuery)
    (raws raws2 : List FileMatchRaw) (sid sid2 : String)
    (ai ai2 silent silent2 : Bool) (h2 h3 : HeadingState)
    (log log2 : List (Nat × List FileMatchRaw))
    (hwf : headingWF h = true)
    (hlive : ∀ fid ∈ headingFolderIds h,
      optTest (fun fm => !fm.disposed) (storeGet h.store fid) = true)
    (hadd : headingAddE (setQueryH h (some q)) raws sid ai silent = .ok (h2, log))
    (hadd2 : headingAddE h2 raws2 sid2 ai2 silent2 = .ok (h3, log2)) :
    (∀ fid ∈ headingFolderIds h, fid ∉ headingFolderIds (setQueryH h (some q))) ∧
    (∀ fid ∈ headingFolderIds h,
      storeGet (setQueryH h (some q)).store fid = storeGet h.store fid) ∧
    (∀ fid ∈ headingFolderIds h, ∀ fm, storeGet h.store fid = some fm →
      storeGet h2.store fid =
        some { fm with
               fileMatches := [],
               clearCount := fm.clearCount + 1,
               disposed := true,
               disposeCount := fm.disposeCount + 1 }) ∧
    (∀ fid ∈ headingFolderIds h, storeGet h3.store fid = storeGet h2.store fid) := by
  have hdef : setQueryH h (some q) = setQuerySome h q := rfl
  rw [hdef] at hadd ⊢
  obtain ⟨S1, S2, S3, S4, S5, S6⟩ := setQuerySome_spec h q
  have hlt := headingFolderIds_lt_nextId h hwf
  have hnd := headingFolderIds_nodup h hwf
  have htargets : ∀ res fid', getFolderMatchId (setQuerySome h q) res = some fid' →
      h.nextId ≤ fid' := by
    intro res fid' hg
    rw [getFolderMatchId] at hg
    cases hm : mapFindSubstr (setQuerySome h q).folderMap res with
    | some fid2 =>
        simp only [hm, Option.some.injEq] at hg
        subst hg
        have hmm : fid2 ∈ findSubstrSeg (toSegments res) (setQuerySome h q).folderMap :=
          mapFindSubstr_mem _ _ _ hm
        exact of_decide_eq_true (trieAll_findSubstr _ _ _ S6 fid2 hmm)
    | none =>
        simp only [hm] at hg
        cases hallow2 : (setQuerySome h q).allowOtherResults with
        | false =>
            rw [hallow2] at hg
            simp at hg
        | true =>
            rw [hallow2] at hg
            simp only [if_true] at hg
            rcases S5 fid' hg with hge | ⟨hful, _⟩
            · exact hge
            · rw [S2, hful] at hallow2
              exact absurd hallow2 (by decide)
  have hexcl1 : ∀ fid ∈ headingFolderIds h,
      ∀ res fid', getFolderMatchId (setQuerySome h q) res = some fid' → fid ≠ fid' := by
    intro fid hmem res fid' hg he
    have := htargets res fid' hg
    rw [← he] at this
    exact Nat.not_le_of_lt (hlt fid hmem) this
  have hexcl2 : ∀ fid ∈ headingFolderIds h,
      ∀ oid, (setQuerySome h q).otherFilesMatchId = some oid → fid ≠ oid := by
    intro fid hmem oid hoid he
    rcases S5 oid hoid with hge | ⟨hallowF, hoidF⟩
    · rw [← he] at hge
      exact Nat.not_le_of_lt (hlt fid hmem) hge
    · rcases headingFolderIds_mem h fid hmem with hmf | ⟨_, hallowT⟩
      · obtain ⟨_, _, hother, _, _⟩ := headingWF_parts h hwf
        obtain ⟨_, hnm⟩ := hother oid hoidF
        rw [he] at hmf
        exact hnm hmf
      · rw [hallowT] at hallowF
        exact absurd hallowF (by decide)
  obtain ⟨hshape12, hteardown⟩ :=
    headingAddE_effect (setQuerySome h q) raws sid ai silent h2 log hadd
  have hc : ∀ fid ∈ headingFolderIds h, ∀ fm, storeGet h.store fid = some fm →
      storeGet h2.store fid =
        some { fm with
               fileMatches := [],
               clearCount := fm.clearCount + 1,
               disposed := true,
               disposeCount := fm.disposeCount + 1 } := by
    intro fid hmem fm hfm
    have hres := hteardown (headingFolderIds h) S1 hnd fid hmem
      (hexcl1 fid hmem) (hexcl2 fid hmem)
    rw [S3 fid (hlt fid hmem), hfm] at hres
    obtain ⟨fm0, hfm0, hd⟩ := optTest_some _ _ (hlive fid hmem)
    have : fm0 = fm := Option.some.inj (hfm0.symm.trans hfm)
    subst this
    rw [Bool.not_eq_true'] at hd
    rw [hres]
    simp [clearFM, disposeFM, hd]
  refine ⟨?_, ?_, hc, ?_⟩
  · intro fid hmem hmem2
    rcases headingFolderIds_mem (setQuerySome h q) fid hmem2 with hmf | ⟨hoid, hallowT⟩
    · exact Nat.not_le_of_lt (hlt fid hmem) (S4 fid hmf)
    · exact hexcl2 fid hmem fid hoid rfl
  · intro fid hmem
    exact S3 fid (hlt fid hmem)
  · intro fid hmem
    obtain ⟨hshape23, hteardown2⟩ :=
      headingAddE_effect h2 raws2 sid2 ai2 silent2 h3 log2 hadd2
    have hpast2 : h2.pastResults = some (headingFolderIds h) := by
      rw [hshape12.2.2.2.2.2.2.1]
      exact S1
    have hres := hteardown2 (headingFolderIds h) hpast2 hnd fid hmem
      (fun res fid' hg => hexcl1 fid hmem res fid'
        (by rw [← getFolderMatchId_sameShape (setQuerySome h q) h2 hshape12 res]; exact hg))
      (fun oid hoid => hexcl2 fid hmem oid
        (by rw [← hshape12.2.1]; exact hoid))
    obtain ⟨fm, hfm⟩ := headingFolderIds_store_some h hwf fid hmem
    have hval := hc fid hmem fm hfm
    rw [hres, hval]
    simp [clearFM, disposeFM]

theorem add_ai_never_adds_to_other_witness :
    (∀ fid batch, (fid, batch) ∈ exAddAIPair.2 →
      exHeadingPlain.otherFilesMatchId ≠ some fid) ∧
    (∀ raw ∈ exAIRaws, classifyRaw exHeadingPlain raw = some none →
      ∀ fid batch, (fid, batch) ∈ exAddAIPair.2 → raw ∉ batch) :=
  add_ai_never_adds_to_other exHeadingPlain exAIRaws "i" false
    exAddAIPair.1 exAddAIPair.2 (by decide) rfl

theorem query_replacement_disposes_once_witness :
    storeGet exAddPair1.1.store 0 =
      some { exFolderObj with
             fileMatches := [],
             clearCount := exFolderObj.clearCount + 1,
             disposed := true,
             disposeCount := exFolderObj.disposeCount + 1 } ∧
    storeGet exAddPair2.1.store 0 = storeGet exAddPair1.1.store 0 :=
  ⟨(query_replacement_disposes_once exHeadingPlain exQ2 [] [] "i" "i"
      false false false false exAddPair1.1 exAddPair2.1 exAddPair1.2 exAddPair2.2
      (by decide) (by decide) rfl rfl).2.2.1 0 (by decide) exFolderObj rfl,
   (query_replacement_disposes_once exHeadingPlain exQ2 [] [] "i" "i"
      false false false false exAddPair1.1 exAddPair2.1 exAddPair1.2 exAddPair2.2
      (by decide) (by decide) rfl rfl).2.2.2 0 (by decide)⟩

end VSSearch
